import Mathlib

/-!
Verification of the entity/field framework in `auxlib/entity.py`.

The Python module provides serializable, validatable, type-enforcing domain
objects: `Field` descriptors (with Int/String/Number/Enum variants), an
`EntityType` metaclass collecting fields into a per-class registry, and an
`Entity` base class with keyword construction, required-field validation,
`load`, `create_from_objects`, `dump`, equality and hashing.

The embedding below is a shallow one: Python values are modelled by the
inductive type `Val` (the fragment of the Python value domain the entity
core manipulates: `None`, ints, strings, floats as opaque tokens, and enum
members), exceptions by `PyErr`, an instance's `__dict__` by the
association list `Store`, and each Python method by a Lean function in
explicit state-passing / `Except` style.  Callable (lambda) values are not
modelled: on this fragment Python's `val() if callable(val) else val` is
the identity.
-/

set_option autoImplicit false

namespace Auxlib

/-- The fragment of the Python value domain used by the entity core:
`None`, `int`/`long`, `str`/`basestring`, `float` (kept opaque: a token
standing for a float literal, with no arithmetic), and enum members
(identified by their class id and member index). -/
inductive Val where
  | none
  | vint (n : Int)
  | vstr (s : String)
  | vfloat (tok : Int)
  | vmember (cls : Nat) (idx : Nat)
  deriving DecidableEq

/-- A Python enumeration class (a subclass of `enum.Enum`): `id` models the
identity of the class object, `values` the underlying raw value of each
member, indexed by member position.  Aliases collapse in Python, so a
well-formed enum has pairwise distinct member values; definitions below do
not assume this, theorems hypothesise it where needed. -/
structure EnumCls where
  id : Nat
  values : List Val
  deriving DecidableEq

/-- A declared field type, the `_type` attribute of a `Field`:
`IntField._type = (int, long)`, `StringField._type = basestring`,
`NumberField._type = (int, long, float, complex)`, and for `EnumField`
the enumeration class itself. -/
inductive PTy where
  | intTy
  | strTy
  | numberTy
  | enumTy (cls : EnumCls)
  deriving DecidableEq

/-- Python's `isinstance(val, t)` for the declared field types. -/
def isinstance (v : Val) (t : PTy) : Bool :=
  match t, v with
  | .intTy, .vint _ => true
  | .strTy, .vstr _ => true
  | .numberTy, .vint _ => true
  | .numberTy, .vfloat _ => true
  | .enumTy c, .vmember cid idx => cid == c.id && idx < c.values.length
  | _, _ => false

/-- The exceptions raised by the entity core.  `validationError` is
modelled from the spec: `ValidationError` (defined in `auxlib.exceptions`,
which is not among the provided sources) carries an optional field name,
the offending value, the expected type, and a message.  `attributeError`,
`typeError` and `valueError` model the corresponding Python builtins;
`valueError` is the bare error raised by an enumeration class call on a
value with no matching member (its message text is not modelled). -/
inductive PyErr where
  | validationError (fieldName : Option String) (val : Option Val)
      (ty : Option PTy) (msg : Option String)
  | attributeError (msg : String)
  | typeError (msg : String)
  | valueError
  deriving DecidableEq

/-- An instance's `__dict__` (and, reused, any plain Python mapping from
names to values): an association list with at most one entry per key. -/
abbrev Store := List (String × Val)

/-- First value bound to `key`, `None`-free analogue of `d[key]`. -/
def Store.lookup (s : Store) (key : String) : Option Val :=
  match s with
  | [] => Option.none
  | (k, v) :: rest => if k = key then some v else Store.lookup rest key

/-- Python `d[key] = v`: replace the existing binding or append one. -/
def Store.insert (s : Store) (key : String) (v : Val) : Store :=
  match s with
  | [] => [(key, v)]
  | (k, w) :: rest =>
      if k = key then (key, v) :: rest else (k, w) :: Store.insert rest key v

/-- Python `d.pop(key, None)`: drop any binding of `key`. -/
def Store.erase (s : Store) (key : String) : Store :=
  match s with
  | [] => []
  | (k, w) :: rest =>
      if k = key then Store.erase rest key else (k, w) :: Store.erase rest key

/-- Looking a member up by raw value, as the `Color(raw)` enum-class call
does: index of the first member whose underlying value equals `v`. -/
def enumLookup (v : Val) : List Val → Option Nat
  | [] => Option.none
  | w :: rest => if w = v then some 0 else (enumLookup v rest).map (· + 1)

/-- Calling the enumeration class on a value, Python `cls(v)`: a member of
`cls` is returned unchanged, any other value is looked up among the
members' underlying values, and a value with no matching member raises
`ValueError`. -/
def enumCall (ecls : EnumCls) (v : Val) : Except PyErr Val :=
  if isinstance v (.enumTy ecls) then .ok v
  else
    match enumLookup v ecls.values with
    | some i => .ok (.vmember ecls.id i)
    | Option.none => .error .valueError

/-- The `.value` attribute of an enum member, resolved against the field's
enumeration class: every value stored for an enum field is a member of
that class (enforced by `Field.validate`), so no global class environment
is needed; on a non-member the attribute access raises `AttributeError`. -/
def enumValue (ecls : EnumCls) (v : Val) : Except PyErr Val :=
  match v with
  | .vmember cid idx =>
      if h : cid = ecls.id ∧ idx < ecls.values.length then
        .ok (ecls.values.get ⟨idx, h.2⟩)
      else .error (.attributeError "value")
  | _ => .error (.attributeError "value")

/-- `EnumField._pre_convert`:
`self._type(val) if val is not None and not isinstance(val, self._type) else val`. -/
def preConvertEnum (ecls : EnumCls) (v : Val) : Except PyErr Val :=
  if v ≠ Val.none && !(isinstance v (.enumTy ecls)) then enumCall ecls v
  else .ok v

/-- Which concrete `Field` subclass a field is: `IntField`, `StringField`,
`NumberField`, or `EnumField` (carrying its enumeration class).
`DateField` and `ListField` are outside the embedded fragment. -/
inductive FieldKind where
  | intF
  | stringF
  | numberF
  | enumF (ecls : EnumCls)
  deriving DecidableEq

/-- The `_type` class attribute fixed by each `Field` subclass. -/
def FieldKind.ty : FieldKind → PTy
  | .intF => .intTy
  | .stringF => .strTy
  | .numberF => .numberTy
  | .enumF e => .enumTy e

/-- A field descriptor after construction: `_default`, `_required`,
`_validation`, `_in_dump` as set by `Field.__init__`, the subclass tag,
and `_name` (absent until `set_name` is called at class registration). -/
structure Field where
  kind : FieldKind
  default : Val
  required : Bool
  validation : Option (Val → Bool)
  in_dump : Bool
  name : Option String

/-- The `type` property, `self._type`. -/
def Field.type (f : Field) : PTy := f.kind.ty

/-- The `is_required` property. -/
def Field.is_required (f : Field) : Bool := f.required

/-- The `is_enum` property:
`isinstance(self._type, type) and issubclass(self._type, Enum)`. -/
def Field.is_enum (f : Field) : Bool :=
  match f.kind with
  | .enumF _ => true
  | _ => false

/-- The `name` property: raises `AttributeError` when `set_name` has not
been called yet. -/
def Field.nameProp (f : Field) : Except PyErr String :=
  match f.name with
  | some n => .ok n
  | Option.none => .error (.attributeError "name")

/-- `getattr(self, 'name', 'undefined name')` as used in `Field.validate`. -/
def Field.nameOrUndefined (f : Field) : String :=
  f.name.getD "undefined name"

/-- `Field.set_name`. -/
def Field.set_name (f : Field) (n : String) : Field := { f with name := some n }

/-- `Field.validate`: returns `True` if the value is valid, `False` if the
value should be unset for the field (a null value on a non-required
field), and raises `ValidationError` otherwise.  On this fragment values
are never callable, so the leading `val = val() if callable(val) else val`
is the identity. -/
def Field.validate (f : Field) (v : Val) : Except PyErr Bool :=
  if !(isinstance v f.type) then
    if v = Val.none ∧ f.is_required = false then .ok false
    else .error (.validationError (some f.nameOrUndefined) (some v)
      (some f.type) Option.none)
  else
    match f.validation with
    | some p =>
        if !(p v) then
          .error (.validationError (some f.nameOrUndefined) (some v)
            Option.none Option.none)
        else .ok true
    | Option.none => .ok true

/-- `Field.__get__` on an instance store: the stored value if present,
else the default if one exists, else `AttributeError`. -/
def Field.get (f : Field) (s : Store) : Except PyErr Val :=
  match f.nameProp with
  | .error e => .error e
  | .ok n =>
      match s.lookup n with
      | some val => .ok val
      | Option.none =>
          if f.default ≠ Val.none then .ok f.default
          else .error (.attributeError ("A value for " ++ n ++ " has not been set"))

/-- `Field.__set__`: validate, then store the value, or on a reject/unset
outcome remove any previously stored value. -/
def Field.set (f : Field) (s : Store) (v : Val) : Except PyErr Store :=
  match f.validate v with
  | .error e => .error e
  | .ok true =>
      match f.nameProp with
      | .error e => .error e
      | .ok n => .ok (Store.insert s n v)
  | .ok false =>
      match f.nameProp with
      | .error e => .error e
      | .ok n => .ok (Store.erase s n)

/-- Attribute read through the descriptor, dispatching on the concrete
subclass: `EnumField.__get__` returns the member's `.value`, the other
embedded variants inherit `Field.__get__` unchanged. -/
def Field.getattr (f : Field) (s : Store) : Except PyErr Val :=
  match f.kind with
  | .enumF ecls =>
      match Field.get f s with
      | .error e => .error e
      | .ok v => enumValue ecls v
  | _ => Field.get f s

/-- Attribute write through the descriptor, dispatching on the concrete
subclass: `EnumField.__set__` first pre-converts the raw value, turning a
`ValueError` from the enum-class call into a `ValidationError`; the other
embedded variants inherit `Field.__set__` unchanged. -/
def Field.setattr (f : Field) (s : Store) (v : Val) : Except PyErr Store :=
  match f.kind with
  | .enumF ecls =>
      match (match preConvertEnum ecls v with
             | .error e => .error e
             | .ok v' => Field.set f s v' : Except PyErr Store) with
      | .error .valueError =>
          match f.nameProp with
          | .error e => .error e
          | .ok n =>
              .error (.validationError (some n) (some v) (some f.type)
                Option.none)
      | r => r
  | _ => Field.set f s v

/-- Three-argument `getattr(obj, name, default)` as used by
`Entity.__hash__`: every failure of field retrieval in this embedding is
an `AttributeError`, which the three-argument form swallows. -/
def Field.getattrOr (f : Field) (s : Store) (d : Val) : Val :=
  match Field.getattr f s with
  | .ok v => v
  | .error _ => d

/-- The arguments handed to a field constructor in an entity class body:
`Field(default, required, validation, in_dump)` plus the concrete
subclass (for `EnumField`, its first positional argument `enum_class`). -/
structure FieldDecl where
  kind : FieldKind
  default : Val
  required : Bool
  validation : Option (Val → Bool)
  in_dump : Bool

/-- Constructing the field object, `Field.__init__` (with, for
`EnumField.__init__`, the `self._pre_convert(default)` applied to the
default first — a `ValueError` from that call propagates).  A non-null
default is validated on the spot; the boolean result is discarded and
only an exception matters.  This runs while the class body executes, so a
failure here is a class-definition-time failure. -/
def mkField (d : FieldDecl) : Except PyErr Field :=
  match (match d.kind with
         | .enumF ecls => preConvertEnum ecls d.default
         | _ => .ok d.default) with
  | .error e => .error e
  | .ok dflt =>
      let f : Field :=
        { kind := d.kind, default := dflt, required := d.required,
          validation := d.validation, in_dump := d.in_dump,
          name := Option.none }
      if dflt ≠ Val.none then
        match f.validate dflt with
        | .error e => .error e
        | .ok _ => .ok f
      else .ok f

/-- The declared default "fails that field's type check or custom
validator": the enum pre-conversion of the default raises, or the
(pre-converted) default is no instance of the declared type, or the
custom validator rejects it. -/
def declDefaultBad (d : FieldDecl) : Bool :=
  match (match d.kind with
         | .enumF ecls => preConvertEnum ecls d.default
         | _ => .ok d.default) with
  | .error _ => true
  | .ok v =>
      !(isinstance v d.kind.ty) ||
        (match d.validation with
         | some p => !(p v)
         | Option.none => false)

/-- An entity class: the identity of the class object and the field
registry `__fields__` built by `EntityType.__init__` (field name to bound
`Field`, in declaration order; Python's dict iteration order is arbitrary
and this list order stands in for it). -/
structure EntityCls where
  id : Nat
  fields : List (String × Field)

/-- Well-formedness of a registry as `EntityType.__init__` produces it:
distinct field names, and each field bound (via `set_name`) to the name
it is registered under. -/
def EntityCls.WF (cls : EntityCls) : Prop :=
  (cls.fields.map Prod.fst).Nodup ∧
    ∀ nf ∈ cls.fields, nf.2.name = some nf.1

instance (cls : EntityCls) : Decidable cls.WF := by
  unfold EntityCls.WF
  infer_instance

/-- Decidable equality for `Except` results, used to evaluate concrete
runs of the embedded operations. -/
instance instDecEqExcept {ε α : Type} [DecidableEq ε] [DecidableEq α] :
    DecidableEq (Except ε α)
  | .ok x, .ok y =>
      if h : x = y then .isTrue (congrArg Except.ok h)
      else .isFalse (fun hc => h (Except.ok.inj hc))
  | .error e, .error e' =>
      if h : e = e' then .isTrue (congrArg Except.error h)
      else .isFalse (fun hc => h (Except.error.inj hc))
  | .ok _, .error _ => .isFalse Except.noConfusion
  | .error _, .ok _ => .isFalse Except.noConfusion

/-- Every non-null default of the registry passes its field's validation.
This invariant holds for every class that finished definition (see the C2
theorem); entity-level theorems take it as a hypothesis. -/
def EntityCls.defaultsOK (cls : EntityCls) : Prop :=
  ∀ nf ∈ cls.fields, nf.2.default = Val.none ∨
    nf.2.validate nf.2.default = .ok true

instance (cls : EntityCls) : Decidable cls.defaultsOK := by
  unfold EntityCls.defaultsOK
  infer_instance

/-- Well-formedness of an enum field's enumeration class as Python
produces it: member values are pairwise distinct (aliases collapse to
identical member objects) and no member's underlying value is itself a
member of the same class. -/
def Field.enumWF (f : Field) : Prop :=
  match f.kind with
  | .enumF ecls => ecls.values.Nodup ∧
      ∀ w ∈ ecls.values, isinstance w (.enumTy ecls) = false
  | _ => True

instance (f : Field) : Decidable f.enumWF := by
  unfold Field.enumWF
  cases f.kind <;> infer_instance

/-- Executing the field declarations of a class body in order: each
constructor may raise (propagating out of the class definition), and
`EntityType.__init__` then binds each surviving field to its declared
name via `set_name`. -/
def declsToFields : List (String × FieldDecl) → Except PyErr (List (String × Field))
  | [] => .ok []
  | (n, d) :: rest =>
      match mkField d with
      | .error e => .error e
      | .ok f =>
          match declsToFields rest with
          | .error e => .error e
          | .ok fs => .ok ((n, Field.set_name f n) :: fs)

/-- `EntityType.__validate_defaults`: the body is a generator expression
that is never iterated, so no validation runs here; defaults are in fact
validated earlier, inside each `Field.__init__`. -/
def validate_defaults (_cls : EntityCls) : Except PyErr Unit :=
  .ok ()

/-- Defining an entity class: execute the class body's field declarations,
collect the registry, and run `EntityType.__init__`'s default check. -/
def mkEntityCls (id : Nat) (decls : List (String × FieldDecl)) :
    Except PyErr EntityCls :=
  match declsToFields decls with
  | .error e => .error e
  | .ok fs =>
      let cls : EntityCls := { id := id, fields := fs }
      match validate_defaults cls with
      | .error e => .error e
      | .ok _ => .ok cls

/-- The keyword-assignment loop of `Entity.__init__`:
`for key in self.__fields__: if key in kwargs: setattr(self, key, kwargs.get(key))`. -/
def initFields (s : Store) (fields : List (String × Field)) (kwargs : Store) :
    Except PyErr Store :=
  match fields with
  | [] => .ok s
  | (key, f) :: rest =>
      match kwargs.lookup key with
      | some v =>
          match Field.setattr f s v with
          | .error e => .error e
          | .ok s' => initFields s' rest kwargs
      | Option.none => initFields s rest kwargs

/-- The generator consumed by `reduce` in `Entity.validate`: force a get
on every required field, in registry order, stopping at the first
exception. -/
def forceRequired (s : Store) : List (String × Field) → Except PyErr Unit
  | [] => .ok ()
  | (_, f) :: rest =>
      if f.is_required then
        match Field.getattr f s with
        | .error e => .error e
        | .ok _ => forceRequired s rest
      else forceRequired s rest

/-- The `except AttributeError` handler of `Entity.validate`: re-raise an
`AttributeError` as `ValidationError(None, msg=e.message)`; anything else
passes through. -/
def wrapAttr (r : Except PyErr Unit) : Except PyErr Unit :=
  match r with
  | .error (.attributeError m) =>
      .error (.validationError Option.none Option.none Option.none (some m))
  | r => r

/-- `Entity.validate`: `reduce(lambda x, y: y, gen)` forces every element
of the generator; when the generator is empty (the class has no required
field) `reduce` raises `TypeError("reduce() of empty sequence with no
initial value")`, which the `except AttributeError` clause does not
catch. -/
def Entity.validate (cls : EntityCls) (s : Store) : Except PyErr Unit :=
  if cls.fields.all (fun nf => !nf.2.is_required) then
    .error (.typeError "reduce() of empty sequence with no initial value")
  else wrapAttr (forceRequired s cls.fields)

/-- `Entity.__init__`: assign every supplied registry key through its
descriptor, then run `Entity.validate`; keys of `kwargs` outside the
registry are never consulted. -/
def Entity.init (cls : EntityCls) (kwargs : Store) : Except PyErr Store :=
  match initFields [] cls.fields kwargs with
  | .error e => .error e
  | .ok s =>
      match Entity.validate cls s with
      | .error e => .error e
      | .ok _ => .ok s

/-- `Entity.load`: `cls(**data_dict)`. -/
def Entity.load (cls : EntityCls) (data_dict : Store) : Except PyErr Store :=
  Entity.init cls data_dict

/-- `find_or_none`: value of the first of the search maps carrying the
key, with a null value treated like an absent key (the search continues
on the tail of the map list); exhausting the maps yields `None`.  The
`Option.none` branch of the inner match is the `except AttributeError`
handler (attribute absent from the current map), the outer one the
`except IndexError` handler (ran out of map objects). -/
def find_or_none (key : String) (search_maps : List Store) (map_index : Nat) : Val :=
  match hm : search_maps.get? map_index with
  | some m =>
      match m.lookup key with
      | some attr =>
          if attr ≠ Val.none then attr
          else find_or_none key (search_maps.drop 1) 0
      | Option.none => find_or_none key search_maps (map_index + 1)
  | Option.none => Val.none
termination_by (search_maps.length, search_maps.length - map_index)
decreasing_by
  · obtain ⟨hlt, _⟩ := List.get?_eq_some.mp hm
    apply Prod.Lex.left
    simp only [List.length_drop]
    omega
  · obtain ⟨hlt, _⟩ := List.get?_eq_some.mp hm
    apply Prod.Lex.right
    omega

/-- The lookup contract stated by the spec for `create_from_objects`: the
first non-null value for `key` across the maps in order, where "attribute
not present" and "attribute present but null" both mean "keep searching";
`None` only once every map is exhausted. -/
def firstNonNullSpec (key : String) : List Store → Val
  | [] => Val.none
  | m :: rest =>
      match m.lookup key with
      | some v => if v ≠ Val.none then v else firstNonNullSpec key rest
      | Option.none => firstNonNullSpec key rest

/-- The value `create_from_objects` places in `init_vars` for a field once
a (possibly null) value has been found:
`field.type(value) if field.is_enum else value`.  The non-enum arm is
guarded by `is_enum` at the call site, so only an enum field's `_type` is
ever called. -/
def assignedOf (f : Field) (v : Val) : Except PyErr Val :=
  match f.kind with
  | .enumF ecls => enumCall ecls v
  | _ => .ok v

/-- The `init_vars` assembly loop of `Entity.create_from_objects`. -/
def buildInitVars (search_maps : List Store) :
    List (String × Field) → Except PyErr Store
  | [] => .ok []
  | (key, f) :: rest =>
      let value := find_or_none key search_maps 0
      if value ≠ Val.none ∨ f.is_required = true then
        match assignedOf f value with
        | .error e => .error e
        | .ok w =>
            match buildInitVars search_maps rest with
            | .error e => .error e
            | .ok iv => .ok ((key, w) :: iv)
      else buildInitVars search_maps rest

/-- `Entity.create_from_objects`: search maps are the keyword overrides
(wrapped, per the spec, in an `AttrDict` exposing keys as attributes —
`auxlib.collection` is not among the provided sources) followed by the
source objects, themselves modelled as attribute-to-value maps; then
construct the instance from the assembled keyword set. -/
def Entity.create_from_objects (cls : EntityCls) (objects : List Store)
    (override_fields : Store) : Except PyErr Store :=
  let search_maps := override_fields :: objects
  match buildInitVars search_maps cls.fields with
  | .error e => .error e
  | .ok init_vars => Entity.init cls init_vars

/-- The dict-comprehension of `Entity.dump`, iterated over the registry:
of the fields marked in-dump, keep those marked required, read each
through get-interception, and keep the pair only when the value is
non-null.  (`__dump_fields` materialises the in-dump subset once per
class and caches it; the cache is pure so the embedding inlines it.) -/
def dumpFields (s : Store) : List (String × Field) → Except PyErr Store
  | [] => .ok []
  | (_, f) :: rest =>
      if f.in_dump && f.is_required then
        match f.nameProp with
        | .error e => .error e
        | .ok n =>
            match Field.getattr f s with
            | .error e => .error e
            | .ok v =>
                match dumpFields s rest with
                | .error e => .error e
                | .ok d => .ok (if v ≠ Val.none then (n, v) :: d else d)
      else dumpFields s rest

/-- `Entity.dump`. -/
def Entity.dump (cls : EntityCls) (s : Store) : Except PyErr Store :=
  dumpFields s cls.fields

/-- A live entity object: its class and its `__dict__`. -/
structure Inst where
  cls : EntityCls
  store : Store

/-- The `all(...)` generator of `Entity.__eq__`: compare the two
instances' retrieved values field by field, short-circuiting on the first
mismatch; a retrieval failure propagates out of the comparison. -/
def eqFields (s1 s2 : Store) : List (String × Field) → Except PyErr Bool
  | [] => .ok true
  | (_, f) :: rest =>
      match Field.getattr f s1 with
      | .error e => .error e
      | .ok v1 =>
          match Field.getattr f s2 with
          | .error e => .error e
          | .ok v2 =>
              if v1 = v2 then eqFields s1 s2 rest else .ok false

/-- `Entity.__eq__`: `False` on distinct concrete classes (class objects
compare by identity, modelled by the class id; equal ids denote the same
class object, hence the same registry), else field-wise comparison of
retrieved values. -/
def Entity.eq (i1 i2 : Inst) : Except PyErr Bool :=
  if i1.cls.id ≠ i2.cls.id then .ok false
  else eqFields i1.store i2.store i1.cls.fields

/-- A fixed deterministic stand-in for CPython's opaque `hash` on the
embedded value fragment (small ints hash to themselves; the other clauses
are arbitrary but definite). -/
def pyHash : Val → Int
  | Val.none => 0
  | .vint n => n
  | .vstr s => s.foldl (fun a c => a * 31 + (c.toNat : Int)) 7
  | .vfloat tok => tok + 1000003
  | .vmember cid idx => ((cid : Int) + 1) * 1000003 + (idx : Int)

/-- The summation of `Entity.__hash__`:
`sum(hash(getattr(self, field, None)) for field in self.__fields__)`,
the three-argument `getattr` turning a failed retrieval into the `None`
sentinel. -/
def hashFields (s : Store) : List (String × Field) → Int
  | [] => 0
  | (_, f) :: rest => pyHash (Field.getattrOr f s Val.none) + hashFields s rest

/-- `Entity.__hash__`. -/
def Entity.hash (i : Inst) : Int :=
  hashFields i.store i.cls.fields

/-- Restriction of keyword data to the keys of the field registry (the
data with its unknown keys removed). -/
def restrictToRegistry (cls : EntityCls) (kwargs : Store) : Store :=
  kwargs.filter (fun kv => decide (kv.1 ∈ cls.fields.map Prod.fst))

/-- The enumeration of the module's doctest:
`Color` with `blue = 0`, `black = 1`, `red = 2`. -/
def Color : EnumCls := { id := 0, values := [.vint 0, .vint 1, .vint 2] }

/-- `color = EnumField(Color)` of the doctest `Truck`, name bound. -/
def colorField : Field :=
  { kind := .enumF Color, default := Val.none, required := true,
    validation := Option.none, in_dump := true, name := some "color" }

/-- `weight = NumberField()` of the doctest `Truck`, name bound. -/
def weightField : Field :=
  { kind := .numberF, default := Val.none, required := true,
    validation := Option.none, in_dump := true, name := some "weight" }

/-- `wheels = IntField(4, in_dump=False)` of the doctest `Truck`, name
bound. -/
def wheelsField : Field :=
  { kind := .intF, default := .vint 4, required := true,
    validation := Option.none, in_dump := false, name := some "wheels" }

/-- The doctest entity class `Truck`. -/
def Truck : EntityCls :=
  { id := 1,
    fields := [("color", colorField), ("weight", weightField),
               ("wheels", wheelsField)] }

/-- The doctest construction data,
`Truck(weight=44.4, color=Color.blue, wheels=18)` (the float literal
`44.4` is the opaque token `vfloat 444`). -/
def truckKwargs : Store :=
  [("weight", .vfloat 444), ("color", .vmember 0 0), ("wheels", .vint 18)]

/-- The `__dict__` of the doctest truck after construction. -/
def truckStore : Store :=
  [("color", .vmember 0 0), ("weight", .vfloat 444), ("wheels", .vint 18)]

/-- The doctest truck's dump, `{'color': 0, 'weight': 44.4}`. -/
def truckDumpd : Store := [("color", .vint 0), ("weight", .vfloat 444)]

/-- The `__dict__` obtained from `Truck.load(truck.dump())`. -/
def truckReload : Store := [("color", .vmember 0 0), ("weight", .vfloat 444)]

/-- `x = IntField(required=False)`, name bound. -/
def optXField : Field :=
  { kind := .intF, default := Val.none, required := false,
    validation := Option.none, in_dump := true, name := some "x" }

/-- An entity class whose single field is optional:
`class P(Entity): x = IntField(required=False)`. -/
def OptOnly : EntityCls :=
  { id := 2, fields := [("x", optXField)] }

/-- An entity class whose single field is required, has no default, and is
excluded from dump: `class H(Entity): a = IntField(in_dump=False)`. -/
def Hidden : EntityCls :=
  { id := 3,
    fields := [("a", { kind := .intF, default := Val.none, required := true,
                       validation := Option.none, in_dump := false,
                       name := some "a" })] }

/-- An enumeration with a single member whose underlying value is `None`:
`class E(Enum): x = None` — legal Python. -/
def NoneEnum : EnumCls := { id := 4, values := [Val.none] }

/-- An entity class with one required `EnumField(NoneEnum)`. -/
def NoneEnt : EntityCls :=
  { id := 5,
    fields := [("e", { kind := .enumF NoneEnum, default := Val.none,
                       required := true, validation := Option.none,
                       in_dump := true, name := some "e" })] }

/-- The store of the doctest truck with its entries in another order:
same retrieved values, so an equal instance. -/
def truckStorePerm : Store :=
  [("weight", .vfloat 444), ("wheels", .vint 18), ("color", .vmember 0 0)]

/-- First source object for the merge-construction scenario: a color and
a null wheels attribute. -/
def sourceA : Store := [("color", .vint 1), ("wheels", Val.none)]

/-- Second source object: wheels, and a color shadowed by `sourceA`. -/
def sourceB : Store := [("wheels", .vint 6), ("color", .vint 2)]

/-- Keyword overrides of the merge-construction scenario. -/
def overrideW : Store := [("weight", .vfloat 444)]

/-- The search maps `create_from_objects` builds for the scenario. -/
def cfoMaps : List Store := [overrideW, sourceA, sourceB]

/-- The `init_vars` the scenario assembles: override wins for `weight`,
`sourceA` wins for `color`, `sourceA`'s null `wheels` defers to
`sourceB`. -/
def cfoIv : Store :=
  [("color", .vmember 0 1), ("weight", .vfloat 444), ("wheels", .vint 6)]

/-- `IntField(default="not an int")`: a declaration whose non-null
default fails the field's type check. -/
def badDecl : FieldDecl :=
  { kind := .intF, default := .vstr "not an int", required := true,
    validation := Option.none, in_dump := true }

/-- The field declarations of the doctest `Truck` class body. -/
def truckDecls : List (String × FieldDecl) :=
  [("color", { kind := .enumF Color, default := Val.none, required := true,
               validation := Option.none, in_dump := true }),
   ("weight", { kind := .numberF, default := Val.none, required := true,
                validation := Option.none, in_dump := true }),
   ("wheels", { kind := .intF, default := .vint 4, required := true,
                validation := Option.none, in_dump := false })]

/-- `buildInitVars` with the lookup expressed by the spec-side
`firstNonNullSpec` instead of the source's `find_or_none`; the two agree
(proved below), and this version evaluates by kernel reduction. -/
def buildInitVarsSpec (search_maps : List Store) :
    List (String × Field) → Except PyErr Store
  | [] => .ok []
  | (key, f) :: rest =>
      let value := firstNonNullSpec key search_maps
      if value ≠ Val.none ∨ f.is_required = true then
        match assignedOf f value with
        | .error e => .error e
        | .ok w =>
            match buildInitVarsSpec search_maps rest with
            | .error e => .error e
            | .ok iv => .ok ((key, w) :: iv)
      else buildInitVarsSpec search_maps rest

/-! ### Helper lemmas: stores -/

/-- Lookup after insert. -/
theorem Store.lookup_insert (s : Store) (k k' : String) (v : Val) :
    (Store.insert s k v).lookup k' = if k' = k then some v else s.lookup k' := by
  induction s with
  | nil =>
      by_cases h : k' = k
      · subst h
        simp [Store.insert, Store.lookup]
      · have h' : ¬(k = k') := fun hc => h hc.symm
        simp [Store.insert, Store.lookup, h, h']
  | cons hd tl ih =>
      obtain ⟨a, b⟩ := hd
      by_cases h1 : a = k
      · subst h1
        by_cases h2 : k' = a
        · subst h2
          simp [Store.insert, Store.lookup]
        · have h2' : ¬(a = k') := fun hc => h2 hc.symm
          simp [Store.insert, Store.lookup, h2, h2']
      · by_cases h2 : a = k'
        · subst h2
          have h3 : ¬(a = k) := h1
          simp [Store.insert, Store.lookup, h1, h3,
            fun hc : a = k => h1 hc]
        · simp [Store.insert, Store.lookup, h1, h2, ih]

/-- Lookup after erase. -/
theorem Store.lookup_erase (s : Store) (k k' : String) :
    (Store.erase s k).lookup k' = if k' = k then Option.none else s.lookup k' := by
  induction s with
  | nil =>
      by_cases h : k' = k <;> simp [Store.erase, Store.lookup, h]
  | cons hd tl ih =>
      obtain ⟨a, b⟩ := hd
      by_cases h1 : a = k
      · subst h1
        by_cases h2 : k' = a
        · subst h2
          simp [Store.erase, Store.lookup, ih]
        · have h2' : ¬(a = k') := fun hc => h2 hc.symm
          simp [Store.erase, Store.lookup, h2, h2', ih]
      · by_cases h2 : a = k'
        · subst h2
          have h3 : ¬(a = k) := h1
          simp [Store.erase, Store.lookup, h3,
            fun hc : a = k => h1 hc]
        · simp [Store.erase, Store.lookup, h1, h2, ih]

/-- A key bound in an association list with pairwise distinct keys is
looked up to its bound value. -/
theorem Store.lookup_of_mem_nodup {l : Store} {k : String} {v : Val}
    (hnd : (l.map Prod.fst).Nodup) (hm : (k, v) ∈ l) :
    Store.lookup l k = some v := by
  induction l with
  | nil => cases hm
  | cons hd tl ih =>
      obtain ⟨a, b⟩ := hd
      simp only [List.map_cons, List.nodup_cons] at hnd
      rcases List.mem_cons.mp hm with h | h
      · cases h
        simp [Store.lookup]
      · have hka : ¬(a = k) := by
          intro hak
          subst hak
          exact hnd.1 (List.mem_map.mpr ⟨(a, v), h, rfl⟩)
        simp [Store.lookup, hka, ih hnd.2 h]

/-! ### Helper lemmas: field validation and access -/

/-- `None` is an instance of no declared field type. -/
theorem isinstance_none (t : PTy) : isinstance Val.none t = false := by
  cases t <;> rfl

/-- Shape of a value that is an instance of an enum type. -/
theorem isinstance_enum_shape {w : Val} {ecls : EnumCls}
    (h : isinstance w (.enumTy ecls) = true) :
    ∃ idx, w = .vmember ecls.id idx ∧ idx < ecls.values.length := by
  cases w <;> simp [isinstance] at h
  exact ⟨_, by rw [h.1], h.2⟩

/-- Characterisation of acceptance by `Field.validate`. -/
theorem Field.validate_ok_true_iff (f : Field) (v : Val) :
    f.validate v = .ok true ↔
      isinstance v f.type = true ∧ ∀ p, f.validation = some p → p v = true := by
  unfold Field.validate
  cases hi : isinstance v f.type with
  | false =>
      constructor
      · intro h
        by_cases hc : v = Val.none ∧ f.is_required = false <;> simp [hc] at h
      · rintro ⟨h, -⟩
        cases h
  | true =>
      cases hv : f.validation with
      | none => simp
      | some p =>
          cases hp : p v <;> simp [hp]

/-- Characterisation of the reject/unset outcome of `Field.validate`. -/
theorem Field.validate_ok_false_iff (f : Field) (v : Val) :
    f.validate v = .ok false ↔
      isinstance v f.type = false ∧ v = Val.none ∧ f.is_required = false := by
  unfold Field.validate
  cases hi : isinstance v f.type with
  | false =>
      by_cases h2 : v = Val.none
      · cases hr : f.is_required <;> simp [h2, hr]
      · simp [h2]
  | true =>
      cases hv : f.validation with
      | none => simp
      | some p => cases hp : p v <;> simp [hp]

/-- The `ValidationError` raised by `Field.validate` on a type mismatch. -/
theorem Field.validate_type_error (f : Field) (v : Val)
    (hi : isinstance v f.type = false)
    (hno : ¬(v = Val.none ∧ f.is_required = false)) :
    f.validate v = .error (.validationError (some f.nameOrUndefined) (some v)
      (some f.type) Option.none) := by
  unfold Field.validate
  rw [hi]
  by_cases h2 : v = Val.none
  · cases hr : f.is_required
    · exact absurd ⟨h2, hr⟩ hno
    · simp [h2, hr]
  · simp [h2]

/-- Binding a name does not change whether a value validates. -/
theorem Field.validate_set_name (f : Field) (n : String) (v : Val) :
    (f.set_name n).validate v = .ok true ↔ f.validate v = .ok true := by
  rw [Field.validate_ok_true_iff, Field.validate_ok_true_iff]
  exact Iff.rfl

/-- The `name` property on a bound field. -/
theorem Field.nameProp_of_name {f : Field} {n : String} (h : f.name = some n) :
    f.nameProp = .ok n := by
  simp [Field.nameProp, h]

/-- `Field.__set__` on an accepted value. -/
theorem Field.set_of_true {f : Field} {n : String} {s : Store} {v : Val}
    (hv : f.validate v = .ok true) (hn : f.name = some n) :
    Field.set f s v = .ok (Store.insert s n v) := by
  simp only [Field.set, hv, Field.nameProp_of_name hn]

/-- `Field.__set__` on a reject/unset outcome. -/
theorem Field.set_of_false {f : Field} {n : String} {s : Store} {v : Val}
    (hv : f.validate v = .ok false) (hn : f.name = some n) :
    Field.set f s v = .ok (Store.erase s n) := by
  simp only [Field.set, hv, Field.nameProp_of_name hn]

/-- `Field.__set__` propagates a validation exception. -/
theorem Field.set_of_error {f : Field} {s : Store} {v : Val} {e : PyErr}
    (hv : f.validate v = .error e) :
    Field.set f s v = .error e := by
  simp [Field.set, hv]

/-- On the coercion-free variants the descriptor write is inherited
unchanged from `Field`. -/
theorem Field.setattr_base {f : Field} (h : f.is_enum = false)
    (s : Store) (v : Val) :
    Field.setattr f s v = Field.set f s v := by
  cases hk : f.kind <;> simp [Field.setattr, hk] <;>
    simp [Field.is_enum, hk] at h

/-- On the coercion-free variants the descriptor read is inherited
unchanged from `Field`. -/
theorem Field.getattr_base {f : Field} (h : f.is_enum = false) (s : Store) :
    Field.getattr f s = Field.get f s := by
  cases hk : f.kind <;> simp [Field.getattr, hk] <;>
    simp [Field.is_enum, hk] at h

/-- Case analysis of a successful `Field.__set__`. -/
theorem Field.set_ok_cases {f : Field} {n : String} {s s' : Store} {v : Val}
    (hn : f.name = some n) (h : Field.set f s v = .ok s') :
    (f.validate v = .ok true ∧ s' = Store.insert s n v) ∨
      (f.is_required = false ∧ f.validate v = .ok false ∧
        s' = Store.erase s n) := by
  unfold Field.set at h
  cases hv : f.validate v with
  | error e => simp [hv] at h
  | ok b =>
      cases b with
      | true =>
          simp only [hv, Field.nameProp_of_name hn] at h
          exact Or.inl ⟨rfl, (Except.ok.inj h).symm⟩
      | false =>
          simp only [hv, Field.nameProp_of_name hn] at h
          exact Or.inr ⟨((Field.validate_ok_false_iff f v).mp hv).2.2, rfl,
            (Except.ok.inj h).symm⟩

/-- Case analysis of a successful descriptor write: the store either
gains a validated value under the field's name or loses its binding of
that name (the latter only for a non-required field); no other key is
touched. -/
theorem Field.setattr_ok_cases {f : Field} {n : String} {s s' : Store} {v : Val}
    (hn : f.name = some n) (h : Field.setattr f s v = .ok s') :
    (∃ w, f.validate w = .ok true ∧ s' = Store.insert s n w) ∨
      (f.is_required = false ∧ s' = Store.erase s n) := by
  cases hk : f.kind
  case enumF ecls =>
      simp only [Field.setattr, hk] at h
      cases hpre : preConvertEnum ecls v with
      | error e =>
          simp only [hpre] at h
          cases e <;> simp [Field.nameProp_of_name hn] at h
      | ok v' =>
          simp only [hpre] at h
          cases hset : Field.set f s v' with
          | error e =>
              simp only [hset] at h
              cases e <;> simp [Field.nameProp_of_name hn] at h
          | ok s'' =>
              simp only [hset] at h
              cases h
              rcases Field.set_ok_cases hn hset with ⟨h1, h2⟩ | ⟨h1, h2, h3⟩
              · exact Or.inl ⟨v', h1, h2⟩
              · exact Or.inr ⟨h1, h3⟩
  all_goals
    simp only [Field.setattr, hk] at h
    rcases Field.set_ok_cases hn h with ⟨h1, h2⟩ | ⟨h1, h2, h3⟩
    all_goals first
      | exact Or.inl ⟨v, h1, h2⟩
      | exact Or.inr ⟨h1, h3⟩

/-- A successful descriptor write touches no key other than the field's
own name. -/
theorem Field.setattr_frame {f : Field} {n : String} {s s' : Store} {v : Val}
    (hn : f.name = some n) (h : Field.setattr f s v = .ok s')
    {k : String} (hk : ¬(k = n)) :
    s'.lookup k = s.lookup k := by
  rcases Field.setattr_ok_cases hn h with ⟨w, -, rfl⟩ | ⟨-, rfl⟩
  · rw [Store.lookup_insert, if_neg hk]
  · rw [Store.lookup_erase, if_neg hk]

/-- `Field.__get__` on a stored value. -/
theorem Field.get_stored {f : Field} {n : String} {s : Store} {w : Val}
    (hn : f.name = some n) (hl : s.lookup n = some w) :
    Field.get f s = .ok w := by
  simp [Field.get, Field.nameProp_of_name hn, hl]

/-- `Field.__get__` falling back to a non-null default. -/
theorem Field.get_default {f : Field} {n : String} {s : Store}
    (hn : f.name = some n) (hl : s.lookup n = Option.none)
    (hd : f.default ≠ Val.none) :
    Field.get f s = .ok f.default := by
  simp [Field.get, Field.nameProp_of_name hn, hl, hd]

/-- `Field.__get__` with neither a stored value nor a default. -/
theorem Field.get_missing {f : Field} {n : String} {s : Store}
    (hn : f.name = some n) (hl : s.lookup n = Option.none)
    (hd : f.default = Val.none) :
    Field.get f s =
      .error (.attributeError ("A value for " ++ n ++ " has not been set")) := by
  simp [Field.get, Field.nameProp_of_name hn, hl, hd]

/-- Every failure of `Field.__get__` is an `AttributeError`. -/
theorem Field.get_err_attr {f : Field} {s : Store} {e : PyErr}
    (h : Field.get f s = .error e) : ∃ m, e = .attributeError m := by
  unfold Field.get at h
  cases hname : f.name with
  | none =>
      simp [Field.nameProp, hname] at h
      exact ⟨"name", h.symm⟩
  | some n =>
      simp only [Field.nameProp_of_name hname] at h
      cases hl : Store.lookup s n with
      | some w => simp only [hl] at h; cases h
      | none =>
          simp only [hl] at h
          by_cases hd : f.default ≠ Val.none
          · rw [if_pos hd] at h; cases h
          · rw [if_neg hd] at h
            exact ⟨_, (Except.error.inj h).symm⟩

/-- Every failure of `enumValue` is an `AttributeError`. -/
theorem enumValue_err_attr {ecls : EnumCls} {v : Val} {e : PyErr}
    (h : enumValue ecls v = .error e) : ∃ m, e = .attributeError m := by
  cases v <;> simp only [enumValue] at h
  case vmember cid idx =>
      by_cases hc : cid = ecls.id ∧ idx < ecls.values.length
      · rw [dif_pos hc] at h; cases h
      · rw [dif_neg hc] at h
        exact ⟨"value", (Except.error.inj h).symm⟩
  all_goals exact ⟨"value", (Except.error.inj h).symm⟩

/-- Every failure of a descriptor read is an `AttributeError`. -/
theorem Field.getattr_err_attr {f : Field} {s : Store} {e : PyErr}
    (h : Field.getattr f s = .error e) : ∃ m, e = .attributeError m := by
  cases hk : f.kind
  case enumF ecls =>
      simp only [Field.getattr, hk] at h
      cases hg : Field.get f s with
      | error e' =>
          simp only [hg] at h
          cases h
          exact Field.get_err_attr hg
      | ok v =>
          simp only [hg] at h
          exact enumValue_err_attr h
  all_goals
    simp only [Field.getattr, hk] at h
    exact Field.get_err_attr h

/-- `enumValue` succeeds on each member of the class, returning the
member's underlying value. -/
theorem enumValue_member {ecls : EnumCls} {idx : Nat}
    (h : idx < ecls.values.length) :
    enumValue ecls (.vmember ecls.id idx) = .ok (ecls.values.get ⟨idx, h⟩) := by
  simp [enumValue, h]

/-- A descriptor read of a stored, validated value succeeds. -/
theorem Field.getattr_stored_ok {f : Field} {n : String} {s : Store} {w : Val}
    (hn : f.name = some n) (hv : f.validate w = .ok true)
    (hl : s.lookup n = some w) :
    ∃ u, Field.getattr f s = .ok u := by
  have hi := ((Field.validate_ok_true_iff f w).mp hv).1
  cases hk : f.kind
  case enumF ecls =>
      have hity : f.type = .enumTy ecls := by rw [Field.type, hk]; rfl
      rw [hity] at hi
      obtain ⟨idx, rfl, hlt⟩ := isinstance_enum_shape hi
      refine ⟨ecls.values.get ⟨idx, hlt⟩, ?_⟩
      simp only [Field.getattr, hk, Field.get_stored hn hl, enumValue_member hlt]
  all_goals
    exact ⟨w, by simp only [Field.getattr, hk, Field.get_stored hn hl]⟩

/-! ### Helper lemmas: construction -/

/-- The assignment loop of `Entity.__init__` touches no key outside the
registry. -/
theorem initFields_frame (kwargs : Store) {k : String} :
    ∀ (fields : List (String × Field)),
      (∀ nf ∈ fields, nf.2.name = some nf.1) →
      k ∉ fields.map Prod.fst →
      ∀ s s' : Store, initFields s fields kwargs = .ok s' →
        s'.lookup k = s.lookup k := by
  intro fields
  induction fields with
  | nil =>
      intro _ _ s s' h
      simp only [initFields] at h
      cases h
      rfl
  | cons hd tl ih =>
      intro hname hk s s' h
      obtain ⟨key, f⟩ := hd
      simp only [List.map_cons, List.mem_cons] at hk
      push_neg at hk
      simp only [initFields] at h
      cases hkw : kwargs.lookup key with
      | none =>
          simp only [hkw] at h
          exact ih (fun nf hnf => hname nf (List.mem_cons_of_mem _ hnf)) hk.2 s s' h
      | some v =>
          simp only [hkw] at h
          cases hset : Field.setattr f s v with
          | error e => simp only [hset] at h; cases h
          | ok s1 =>
              simp only [hset] at h
              have h2 := ih (fun nf hnf => hname nf (List.mem_cons_of_mem _ hnf))
                hk.2 s1 s' h
              rw [h2]
              exact Field.setattr_frame (hname (key, f) (List.mem_cons_self _ _))
                hset hk.1

/-- What the assignment loop of `Entity.__init__` does at one registry
key: with the key absent from the data it leaves the key's binding alone;
with the key supplied it routes the value through the field's descriptor
write, whose outcome at that key survives to the end of the loop. -/
theorem initFields_at_key (kwargs : Store) {key : String} {f : Field} :
    ∀ (fields : List (String × Field)),
      (fields.map Prod.fst).Nodup →
      (∀ nf ∈ fields, nf.2.name = some nf.1) →
      (key, f) ∈ fields →
      ∀ s0 s : Store, initFields s0 fields kwargs = .ok s →
        (kwargs.lookup key = Option.none → s.lookup key = s0.lookup key) ∧
        (∀ v, kwargs.lookup key = some v →
          ∃ s1 s1', Field.setattr f s1 v = .ok s1' ∧
            s.lookup key = s1'.lookup key) := by
  intro fields
  induction fields with
  | nil => intro _ _ hmem; cases hmem
  | cons hd tl ih =>
      intro hnd hname hmem s0 s h
      obtain ⟨k1, f1⟩ := hd
      simp only [List.map_cons, List.nodup_cons] at hnd
      have hnametl : ∀ nf ∈ tl, nf.2.name = some nf.1 :=
        fun nf hnf => hname nf (List.mem_cons_of_mem _ hnf)
      simp only [initFields] at h
      rcases List.mem_cons.mp hmem with heq | hmemtl
      · cases heq
        constructor
        · intro hkw
          simp only [hkw] at h
          exact initFields_frame kwargs tl hnametl hnd.1 s0 s h
        · intro v hkw
          simp only [hkw] at h
          cases hset : Field.setattr f s0 v with
          | error e => simp only [hset] at h; cases h
          | ok s1 =>
              simp only [hset] at h
              exact ⟨s0, s1, hset,
                initFields_frame kwargs tl hnametl hnd.1 s1 s h⟩
      · cases hkw1 : kwargs.lookup k1 with
        | none =>
            simp only [hkw1] at h
            exact ih hnd.2 hnametl hmemtl s0 s h
        | some v1 =>
            simp only [hkw1] at h
            cases hset : Field.setattr f1 s0 v1 with
            | error e => simp only [hset] at h; cases h
            | ok s1 =>
                simp only [hset] at h
                have hkne : ¬(key = k1) := fun hc =>
                  hnd.1 (hc ▸ (List.mem_map.mpr ⟨(key, f), hmemtl, rfl⟩))
                obtain ⟨ihnone, ihsome⟩ := ih hnd.2 hnametl hmemtl s1 s h
                refine ⟨?_, ihsome⟩
                intro hkw
                rw [ihnone hkw]
                exact Field.setattr_frame
                  (hname (k1, f1) (List.mem_cons_self _ _)) hset hkne

/-- Every value stored by a run of the assignment loop that started from
an empty store has been accepted by its field's validation. -/
theorem initFields_stored_validate {fields : List (String × Field)}
    {kwargs s : Store}
    (hnd : (fields.map Prod.fst).Nodup)
    (hname : ∀ nf ∈ fields, nf.2.name = some nf.1)
    (h : initFields [] fields kwargs = .ok s)
    {key : String} {f : Field} (hmem : (key, f) ∈ fields)
    {w : Val} (hl : s.lookup key = some w) :
    f.validate w = .ok true := by
  obtain ⟨hnone, hsome⟩ := initFields_at_key kwargs fields hnd hname hmem [] s h
  cases hkw : kwargs.lookup key with
  | none =>
      rw [hnone hkw] at hl
      simp [Store.lookup] at hl
  | some v =>
      obtain ⟨s1, s1', hset, heq⟩ := hsome v hkw
      rw [heq] at hl
      have hn := hname (key, f) hmem
      rcases Field.setattr_ok_cases hn hset with ⟨w', hw', rfl⟩ | ⟨-, rfl⟩
      · rw [Store.lookup_insert, if_pos rfl] at hl
        cases hl
        exact hw'
      · rw [Store.lookup_erase, if_pos rfl] at hl
        cases hl

/-- A required registry key that was supplied to a successful run of the
assignment loop ends up bound to a validated value. -/
theorem initFields_required_some {fields : List (String × Field)}
    {kwargs s : Store}
    (hnd : (fields.map Prod.fst).Nodup)
    (hname : ∀ nf ∈ fields, nf.2.name = some nf.1)
    (h : initFields [] fields kwargs = .ok s)
    {key : String} {f : Field} (hmem : (key, f) ∈ fields)
    (hreq : f.is_required = true)
    {v : Val} (hkw : kwargs.lookup key = some v) :
    ∃ w, s.lookup key = some w ∧ f.validate w = .ok true := by
  obtain ⟨-, hsome⟩ := initFields_at_key kwargs fields hnd hname hmem [] s h
  obtain ⟨s1, s1', hset, heq⟩ := hsome v hkw
  have hn := hname (key, f) hmem
  rcases Field.setattr_ok_cases hn hset with ⟨w, hw, rfl⟩ | ⟨hnr, rfl⟩
  · rw [heq, Store.lookup_insert, if_pos rfl]
    exact ⟨w, rfl, hw⟩
  · rw [hreq] at hnr
    cases hnr

/-- Every failure of `forceRequired` is an `AttributeError`. -/
theorem forceRequired_err_attr {s : Store} :
    ∀ {fields : List (String × Field)} {e : PyErr},
      forceRequired s fields = .error e → ∃ m, e = .attributeError m := by
  intro fields
  induction fields with
  | nil => intro e h; simp [forceRequired] at h
  | cons hd tl ih =>
      intro e h
      obtain ⟨k1, f1⟩ := hd
      simp only [forceRequired] at h
      by_cases hr : f1.is_required
      · rw [if_pos hr] at h
        cases hg : Field.getattr f1 s with
        | error e1 =>
            simp only [hg] at h
            cases h
            exact Field.getattr_err_attr hg
        | ok u =>
            simp only [hg] at h
            exact ih h
      · rw [if_neg hr] at h
        exact ih h

/-- `forceRequired` succeeds when every required field is readable. -/
theorem forceRequired_ok_of {s : Store} :
    ∀ {fields : List (String × Field)},
      (∀ nf ∈ fields, nf.2.is_required = true →
        ∃ u, Field.getattr nf.2 s = .ok u) →
      forceRequired s fields = .ok () := by
  intro fields
  induction fields with
  | nil => intro _; rfl
  | cons hd tl ih =>
      intro hall
      obtain ⟨k1, f1⟩ := hd
      simp only [forceRequired]
      have htl := fun nf hnf => hall nf (List.mem_cons_of_mem _ hnf)
      by_cases hr : f1.is_required
      · rw [if_pos hr]
        obtain ⟨u, hu⟩ := hall (k1, f1) (List.mem_cons_self _ _) hr
        rw [hu]
        exact ih htl
      · rw [if_neg hr]
        exact ih htl

/-- `forceRequired` fails when some required field is unreadable. -/
theorem forceRequired_err_of {s : Store} :
    ∀ {fields : List (String × Field)} {key : String} {f : Field},
      (key, f) ∈ fields → f.is_required = true →
      ∀ {e0 : PyErr}, Field.getattr f s = .error e0 →
      ∃ e, forceRequired s fields = .error e := by
  intro fields
  induction fields with
  | nil => intro _ _ hmem; cases hmem
  | cons hd tl ih =>
      intro key f hmem hreq e0 hget
      obtain ⟨k1, f1⟩ := hd
      simp only [forceRequired]
      rcases List.mem_cons.mp hmem with heq | hmemtl
      · cases heq
        rw [if_pos hreq, hget]
        exact ⟨e0, rfl⟩
      · by_cases hr : f1.is_required
        · rw [if_pos hr]
          cases hg : Field.getattr f1 s with
          | error e1 => exact ⟨e1, rfl⟩
          | ok u => exact ih hmemtl hreq hget
        · rw [if_neg hr]
          exact ih hmemtl hreq hget

/-- `Entity.validate` succeeds on a store where every required field is
readable, provided at least one field is required. -/
theorem Entity.validate_ok_of {cls : EntityCls} {s : Store}
    (hne : ∃ nf ∈ cls.fields, nf.2.is_required = true)
    (hall : ∀ nf ∈ cls.fields, nf.2.is_required = true →
      ∃ u, Field.getattr nf.2 s = .ok u) :
    Entity.validate cls s = .ok () := by
  unfold Entity.validate
  obtain ⟨nf, hnf, hr⟩ := hne
  have hfalse : cls.fields.all (fun nf => !nf.2.is_required) = false := by
    apply List.all_eq_false.mpr
    exact ⟨nf, hnf, by simp [hr]⟩
  rw [hfalse]
  simp only [Bool.false_eq_true, if_false]
  rw [forceRequired_ok_of hall]
  rfl

/-- `Entity.validate` wraps the retrieval failure of a required field
into a field-name-free `ValidationError`. -/
theorem Entity.validate_err_of {cls : EntityCls} {s : Store}
    {key : String} {f : Field} (hmem : (key, f) ∈ cls.fields)
    (hreq : f.is_required = true)
    {e0 : PyErr} (hget : Field.getattr f s = .error e0) :
    ∃ m, Entity.validate cls s =
      .error (.validationError Option.none Option.none Option.none (some m)) := by
  unfold Entity.validate
  have hfalse : cls.fields.all (fun nf => !nf.2.is_required) = false := by
    apply List.all_eq_false.mpr
    exact ⟨(key, f), hmem, by simp [hreq]⟩
  rw [hfalse]
  simp only [Bool.false_eq_true, if_false]
  obtain ⟨e, he⟩ := forceRequired_err_of hmem hreq hget
  obtain ⟨m, rfl⟩ := forceRequired_err_attr he
  exact ⟨m, by rw [he]; rfl⟩

/-! ### Helper lemmas: dump, equality, hash -/

/-- Membership in the dump output: exactly the pairs of an in-dump,
required field name with its non-null retrieved value. -/
theorem dumpFields_mem (s : Store) :
    ∀ (fields : List (String × Field)),
      (∀ nf ∈ fields, nf.2.name = some nf.1) →
      ∀ d, dumpFields s fields = .ok d →
      ∀ k v, ((k, v) ∈ d ↔
        ∃ f, (k, f) ∈ fields ∧ f.in_dump = true ∧ f.is_required = true ∧
          Field.getattr f s = .ok v ∧ v ≠ Val.none) := by
  intro fields
  induction fields with
  | nil =>
      intro _ d h k v
      simp only [dumpFields] at h
      cases h
      simp
  | cons hd tl ih =>
      intro hname d h k v
      obtain ⟨k1, f1⟩ := hd
      have hnametl : ∀ nf ∈ tl, nf.2.name = some nf.1 :=
        fun nf hnf => hname nf (List.mem_cons_of_mem _ hnf)
      have hn1 : f1.name = some k1 := hname (k1, f1) (List.mem_cons_self _ _)
      simp only [dumpFields] at h
      by_cases hc : (f1.in_dump && f1.is_required) = true
      · rw [if_pos hc] at h
        simp only [Field.nameProp_of_name hn1] at h
        obtain ⟨hd1, hr1⟩ := Bool.and_eq_true_iff.mp hc
        cases hg : Field.getattr f1 s with
        | error e => simp only [hg] at h; cases h
        | ok v1 =>
            simp only [hg] at h
            cases hrest : dumpFields s tl with
            | error e => simp only [hrest] at h; cases h
            | ok d' =>
                simp only [hrest] at h
                cases h
                by_cases hv1 : v1 = Val.none
                · rw [if_neg (by simp [hv1])]
                  rw [ih hnametl d' hrest k v]
                  constructor
                  · rintro ⟨f, hf, h1, h2, h3, h4⟩
                    exact ⟨f, List.mem_cons_of_mem _ hf, h1, h2, h3, h4⟩
                  · rintro ⟨f, hf, h1, h2, h3, h4⟩
                    rcases List.mem_cons.mp hf with heq | htl
                    · cases heq
                      rw [hg] at h3
                      cases h3
                      exact absurd hv1 h4
                    · exact ⟨f, htl, h1, h2, h3, h4⟩
                · rw [if_pos hv1]
                  constructor
                  · intro hin
                    rcases List.mem_cons.mp hin with heq | hin'
                    · cases heq
                      exact ⟨f1, List.mem_cons_self _ _, hd1, hr1, hg, hv1⟩
                    · obtain ⟨f, hf, h1, h2, h3, h4⟩ :=
                        (ih hnametl d' hrest k v).mp hin'
                      exact ⟨f, List.mem_cons_of_mem _ hf, h1, h2, h3, h4⟩
                  · rintro ⟨f, hf, h1, h2, h3, h4⟩
                    rcases List.mem_cons.mp hf with heq | htl
                    · cases heq
                      rw [hg] at h3
                      cases h3
                      exact List.mem_cons_self _ _
                    · exact List.mem_cons_of_mem _
                        ((ih hnametl d' hrest k v).mpr ⟨f, htl, h1, h2, h3, h4⟩)
      · rw [if_neg hc] at h
        rw [ih hnametl d h k v]
        constructor
        · rintro ⟨f, hf, h1, h2, h3, h4⟩
          exact ⟨f, List.mem_cons_of_mem _ hf, h1, h2, h3, h4⟩
        · rintro ⟨f, hf, h1, h2, h3, h4⟩
          rcases List.mem_cons.mp hf with heq | htl
          · cases heq
            exact absurd (by rw [h1, h2]; rfl) hc
          · exact ⟨f, htl, h1, h2, h3, h4⟩

/-- The dump's keys form a subsequence of the registry's keys. -/
theorem dumpFields_keys_sublist (s : Store) :
    ∀ (fields : List (String × Field)),
      (∀ nf ∈ fields, nf.2.name = some nf.1) →
      ∀ d, dumpFields s fields = .ok d →
        (d.map Prod.fst).Sublist (fields.map Prod.fst) := by
  intro fields
  induction fields with
  | nil =>
      intro _ d h
      simp only [dumpFields] at h
      cases h
      simp
  | cons hd tl ih =>
      intro hname d h
      obtain ⟨k1, f1⟩ := hd
      have hnametl : ∀ nf ∈ tl, nf.2.name = some nf.1 :=
        fun nf hnf => hname nf (List.mem_cons_of_mem _ hnf)
      have hn1 : f1.name = some k1 := hname (k1, f1) (List.mem_cons_self _ _)
      simp only [dumpFields] at h
      by_cases hc : (f1.in_dump && f1.is_required) = true
      · rw [if_pos hc] at h
        simp only [Field.nameProp_of_name hn1] at h
        cases hg : Field.getattr f1 s with
        | error e => simp only [hg] at h; cases h
        | ok v1 =>
            simp only [hg] at h
            cases hrest : dumpFields s tl with
            | error e => simp only [hrest] at h; cases h
            | ok d' =>
                simp only [hrest] at h
                cases h
                by_cases hv1 : v1 = Val.none
                · rw [if_neg (by simp [hv1])]
                  exact (ih hnametl d' hrest).cons _
                · rw [if_pos hv1]
                  simpa using (ih hnametl d' hrest).cons₂ k1
      · rw [if_neg hc] at h
        exact (ih hnametl d h).cons _

/-- Field-wise equality succeeds with `True` exactly when both sides'
retrievals succeed and agree on every field. -/
theorem eqFields_ok_true_iff (s1 s2 : Store) :
    ∀ (fields : List (String × Field)),
      (eqFields s1 s2 fields = .ok true ↔
        ∀ nf ∈ fields, ∃ v, Field.getattr nf.2 s1 = .ok v ∧
          Field.getattr nf.2 s2 = .ok v) := by
  intro fields
  induction fields with
  | nil => simp [eqFields]
  | cons hd tl ih =>
      obtain ⟨k1, f1⟩ := hd
      simp only [eqFields]
      constructor
      · intro h
        cases hg1 : Field.getattr f1 s1 with
        | error e => simp only [hg1] at h; cases h
        | ok v1 =>
            simp only [hg1] at h
            cases hg2 : Field.getattr f1 s2 with
            | error e => simp only [hg2] at h; cases h
            | ok v2 =>
                simp only [hg2] at h
                by_cases hv : v1 = v2
                · rw [if_pos hv] at h
                  intro nf hnf
                  rcases List.mem_cons.mp hnf with heq | htl
                  · cases heq
                    exact ⟨v1, hg1, by rw [hv]; exact hg2⟩
                  · exact ih.mp h nf htl
                · rw [if_neg hv] at h
                  cases h
      · intro hall
        obtain ⟨v, hv1, hv2⟩ := hall (k1, f1) (List.mem_cons_self _ _)
        simp only [hv1, hv2, if_pos rfl]
        exact ih.mpr (fun nf hnf => hall nf (List.mem_cons_of_mem _ hnf))

/-- The hash loop is the sum of the per-field hashes of the
retrieved-or-sentinel values. -/
theorem hashFields_eq_sum (s : Store) :
    ∀ (fields : List (String × Field)),
      hashFields s fields =
        (fields.map (fun nf => pyHash (Field.getattrOr nf.2 s Val.none))).sum := by
  intro fields
  induction fields with
  | nil => rfl
  | cons hd tl ih => simp [hashFields, ih]

/-! ### Helper lemmas: multi-source lookup -/

/-- Dropping up to a known index exposes the element there. -/
theorem drop_cons_of_get {α : Type} {ms : List α} {i : Nat} {m : α}
    (h : ms.get? i = some m) : ms.drop i = m :: ms.drop (i + 1) := by
  obtain ⟨hlt, hget⟩ := List.get?_eq_some.mp h
  rw [List.drop_eq_getElem_cons hlt]
  congr 1

/-- `find_or_none` on an exhausted map list. -/
theorem fon_out_of_range (key : String) (ms : List Store) (idx : Nat)
    (h : ms.get? idx = Option.none) : find_or_none key ms idx = Val.none := by
  rw [find_or_none.eq_def]
  split
  · rename_i m hm
    rw [h] at hm
    cases hm
  · rfl

/-- `find_or_none` skipping a map that lacks the key. -/
theorem fon_absent (key : String) (ms : List Store) (idx : Nat) (m : Store)
    (h1 : ms.get? idx = some m) (h2 : m.lookup key = Option.none) :
    find_or_none key ms idx = find_or_none key ms (idx + 1) := by
  rw [find_or_none.eq_def]
  split
  · rename_i m' hm
    rw [h1] at hm
    cases hm
    rw [h2]
  · rename_i hm
    rw [h1] at hm
    cases hm

/-- `find_or_none` restarting on a null hit. -/
theorem fon_null (key : String) (ms : List Store) (idx : Nat) (m : Store)
    (h1 : ms.get? idx = some m) (h2 : m.lookup key = some Val.none) :
    find_or_none key ms idx = find_or_none key (ms.drop 1) 0 := by
  rw [find_or_none.eq_def]
  split
  · rename_i m' hm
    rw [h1] at hm
    cases hm
    rw [h2]
    simp
  · rename_i hm
    rw [h1] at hm
    cases hm

/-- `find_or_none` returning a non-null hit. -/
theorem fon_found (key : String) (ms : List Store) (idx : Nat) (m : Store)
    (w : Val) (h1 : ms.get? idx = some m) (h2 : m.lookup key = some w)
    (h3 : w ≠ Val.none) :
    find_or_none key ms idx = w := by
  rw [find_or_none.eq_def]
  split
  · rename_i m' hm
    rw [h1] at hm
    cases hm
    rw [h2]
    simp [h3]
  · rename_i hm
    rw [h1] at hm
    cases hm

/-- `firstNonNullSpec` ignores a block of maps none of which carries a
non-null value for the key. -/
theorem fns_skip (key : String) :
    ∀ (d a : Nat) (ms : List Store),
      (∀ j, a ≤ j → j < a + d → ∀ m, ms.get? j = some m →
        m.lookup key = Option.none ∨ m.lookup key = some Val.none) →
      firstNonNullSpec key (ms.drop a) = firstNonNullSpec key (ms.drop (a + d)) := by
  intro d
  induction d with
  | zero => intro a ms _; rfl
  | succ d ih =>
      intro a ms h
      cases hga : ms.get? a with
      | none =>
          have hlen : ms.length ≤ a := List.get?_eq_none.mp hga
          rw [List.drop_eq_nil_of_le hlen,
            List.drop_eq_nil_of_le (le_trans hlen (Nat.le_add_right a (d + 1)))]
      | some m =>
          rw [drop_cons_of_get hga]
          have hstep : firstNonNullSpec key (m :: ms.drop (a + 1)) =
              firstNonNullSpec key (ms.drop (a + 1)) := by
            rcases h a (le_refl a) (by omega) m hga with hn | hsn
            · simp [firstNonNullSpec, hn]
            · simp [firstNonNullSpec, hsn]
          rw [hstep]
          have harith : a + (d + 1) = (a + 1) + d := by omega
          rw [harith]
          exact ih (a + 1) ms (fun j hj1 hj2 m' hm' => h j (by omega) (by omega) m' hm')

/-- `find_or_none` computes `firstNonNullSpec` of the maps from the
current index on, provided the maps before the index lack the key (the
invariant the recursion maintains). -/
theorem find_or_none_eq_spec_aux (key : String) (ms : List Store) (idx : Nat) :
    (∀ j, j < idx → ∀ m, ms.get? j = some m → m.lookup key = Option.none) →
      find_or_none key ms idx = firstNonNullSpec key (ms.drop idx) := by
  induction ms, idx using find_or_none.induct key with
  | case1 ms idx m hget w hlook hne =>
      intro h
      rw [fon_found key ms idx m w hget hlook hne]
      rw [drop_cons_of_get hget]
      simp [firstNonNullSpec, hlook, hne]
  | case2 ms idx m hget w hlook hnne ih =>
      intro h
      have hw : w = Val.none := not_not.mp hnne
      subst hw
      rw [fon_null key ms idx m hget hlook]
      rw [ih (fun j hj => absurd hj (Nat.not_lt_zero j))]
      rw [List.drop_zero]
      rw [drop_cons_of_get hget]
      have hrhs : firstNonNullSpec key (m :: ms.drop (idx + 1)) =
          firstNonNullSpec key (ms.drop (idx + 1)) := by
        simp [firstNonNullSpec, hlook]
      rw [hrhs]
      have := fns_skip key idx 1 ms (by
        intro j hj1 hj2 m' hm'
        by_cases hji : j < idx
        · exact Or.inl (h j hji m' hm')
        · have : j = idx := by omega
          subst this
          rw [hget] at hm'
          cases hm'
          exact Or.inr hlook)
      simpa [Nat.add_comm] using this
  | case3 ms idx m hget hlook ih =>
      intro h
      rw [fon_absent key ms idx m hget hlook]
      rw [ih (by
        intro j hj m' hm'
        by_cases hji : j < idx
        · exact h j hji m' hm'
        · have : j = idx := by omega
          subst this
          rw [hget] at hm'
          cases hm'
          exact hlook)]
      rw [drop_cons_of_get hget]
      simp [firstNonNullSpec, hlook]
  | case4 ms idx hget =>
      intro h
      rw [fon_out_of_range key ms idx hget]
      rw [List.drop_eq_nil_of_le (List.get?_eq_none.mp hget)]
      rfl

/-- The lookup of `find_or_none` refines the spec's contract: first
non-null value across the maps in order, absence and null treated alike. -/
theorem find_or_none_eq_spec (key : String) (ms : List Store) :
    find_or_none key ms 0 = firstNonNullSpec key ms := by
  have := find_or_none_eq_spec_aux key ms 0
    (fun j hj => absurd hj (Nat.not_lt_zero j))
  simpa using this

/-! ### Helper lemmas: enum member lookup -/

/-- A successful `enumLookup` returns an index holding the value. -/
theorem enumLookup_get {v : Val} :
    ∀ {l : List Val} {i : Nat}, enumLookup v l = some i →
      ∃ h : i < l.length, l.get ⟨i, h⟩ = v := by
  intro l
  induction l with
  | nil => intro i h; cases h
  | cons w rest ih =>
      intro i h
      simp only [enumLookup] at h
      by_cases hw : w = v
      · rw [if_pos hw] at h
        cases h
        exact ⟨by simp, hw⟩
      · rw [if_neg hw] at h
        cases hi : enumLookup v rest with
        | none => rw [hi] at h; cases h
        | some j =>
            rw [hi] at h
            cases h
            obtain ⟨hlt, hget⟩ := ih hi
            exact ⟨by simpa using Nat.succ_lt_succ hlt, hget⟩

/-- `enumLookup` fails exactly on values held by no member. -/
theorem enumLookup_none_iff {v : Val} :
    ∀ {l : List Val}, enumLookup v l = Option.none ↔ v ∉ l := by
  intro l
  induction l with
  | nil => simp [enumLookup]
  | cons w rest ih =>
      simp only [enumLookup, List.mem_cons]
      by_cases hw : w = v
      · simp [hw]
      · rw [if_neg hw, Option.map_eq_none', ih]
        constructor
        · intro h hc
          rcases hc with hc | hc
          · exact hw hc.symm
          · exact h hc
        · intro h hc
          exact h (Or.inr hc)

/-- On a duplicate-free member list, the member holding a value is the
one `enumLookup` finds. -/
theorem enumLookup_nodup {l : List Val} (hnd : l.Nodup) {idx : Nat}
    (h : idx < l.length) {v : Val} (hget : l.get ⟨idx, h⟩ = v) :
    enumLookup v l = some idx := by
  cases hi : enumLookup v l with
  | none =>
      exfalso
      exact (enumLookup_none_iff.mp hi) (hget ▸ l.get_mem _ _)
  | some j =>
      obtain ⟨hlt, hgetj⟩ := enumLookup_get hi
      have : (⟨j, hlt⟩ : Fin l.length) = ⟨idx, h⟩ := by
        apply (List.Nodup.get_inj_iff hnd).mp
        rw [hgetj, hget]
      cases this
      rfl

/-! ### Helper lemmas: merge-construction -/

/-- Every failure of an enum-class call is the bare `ValueError`. -/
theorem enumCall_err {ecls : EnumCls} {v : Val} {e : PyErr}
    (h : enumCall ecls v = .error e) : e = .valueError := by
  unfold enumCall at h
  by_cases hi : isinstance v (.enumTy ecls) = true
  · rw [if_pos hi] at h
    cases h
  · rw [if_neg hi] at h
    cases hl : enumLookup v ecls.values with
    | none =>
        rw [hl] at h
        exact (Except.error.inj h).symm
    | some i =>
        rw [hl] at h
        cases h

/-- Every failure of the per-field `init_vars` coercion is the bare
`ValueError`. -/
theorem assignedOf_err {f : Field} {v : Val} {e : PyErr}
    (h : assignedOf f v = .error e) : e = .valueError := by
  cases hk : f.kind <;> simp only [assignedOf, hk] at h
  case enumF ecls => exact enumCall_err h
  all_goals cases h

/-- `buildInitVars` agrees with its spec-side rendition. -/
theorem buildInitVars_eq_spec (search_maps : List Store) :
    ∀ fields, buildInitVars search_maps fields =
      buildInitVarsSpec search_maps fields := by
  intro fields
  induction fields with
  | nil => rfl
  | cons hd tl ih =>
      obtain ⟨key, f⟩ := hd
      simp only [buildInitVars, buildInitVarsSpec,
        find_or_none_eq_spec key search_maps, ih]

/-- Every failure of `buildInitVars` is the bare `ValueError`. -/
theorem buildInitVars_err {search_maps : List Store} :
    ∀ {fields : List (String × Field)} {e : PyErr},
      buildInitVars search_maps fields = .error e → e = .valueError := by
  intro fields
  induction fields with
  | nil => intro e h; cases h
  | cons hd tl ih =>
      intro e h
      obtain ⟨key, f⟩ := hd
      simp only [buildInitVars] at h
      by_cases hcond : find_or_none key search_maps 0 ≠ Val.none ∨
          f.is_required = true
      · rw [if_pos hcond] at h
        cases ha : assignedOf f (find_or_none key search_maps 0) with
        | error e1 =>
            simp only [ha] at h
            cases h
            exact assignedOf_err ha
        | ok w =>
            simp only [ha] at h
            cases hrest : buildInitVars search_maps tl with
            | error e1 =>
                simp only [hrest] at h
                cases h
                exact ih hrest
            | ok iv => simp only [hrest] at h; cases h
      · rw [if_neg hcond] at h
        exact ih h

/-- A required field none of whose sources yields a usable value forces
`buildInitVars` to fail (with the failure of that field's coercion, or an
earlier one). -/
theorem buildInitVars_err_of {search_maps : List Store} :
    ∀ {fields : List (String × Field)} {key : String} {f : Field},
      (key, f) ∈ fields → f.is_required = true →
      ∀ {e0 : PyErr},
        assignedOf f (find_or_none key search_maps 0) = .error e0 →
        ∃ e, buildInitVars search_maps fields = .error e := by
  intro fields
  induction fields with
  | nil => intro _ _ hmem; cases hmem
  | cons hd tl ih =>
      intro key f hmem hreq e0 ha
      obtain ⟨k1, f1⟩ := hd
      simp only [buildInitVars]
      rcases List.mem_cons.mp hmem with heq | hmemtl
      · cases heq
        rw [if_pos (Or.inr hreq), ha]
        exact ⟨e0, rfl⟩
      · by_cases hcond : find_or_none k1 search_maps 0 ≠ Val.none ∨
            f1.is_required = true
        · rw [if_pos hcond]
          cases ha1 : assignedOf f1 (find_or_none k1 search_maps 0) with
          | error e1 => exact ⟨e1, rfl⟩
          | ok w =>
              obtain ⟨e, he⟩ := ih hmemtl hreq ha
              rw [he]
              exact ⟨e, rfl⟩
        · rw [if_neg hcond]
          exact ih hmemtl hreq ha

/-- Keys outside the registry never appear in `init_vars`. -/
theorem buildInitVars_lookup_notmem {search_maps : List Store} :
    ∀ {fields : List (String × Field)} {iv : Store},
      buildInitVars search_maps fields = .ok iv →
      ∀ key, key ∉ fields.map Prod.fst → iv.lookup key = Option.none := by
  intro fields
  induction fields with
  | nil =>
      intro iv h key _
      cases h
      rfl
  | cons hd tl ih =>
      intro iv h key hk
      obtain ⟨k1, f1⟩ := hd
      simp only [List.map_cons, List.mem_cons] at hk
      push_neg at hk
      simp only [buildInitVars] at h
      by_cases hcond : find_or_none k1 search_maps 0 ≠ Val.none ∨
          f1.is_required = true
      · rw [if_pos hcond] at h
        cases ha : assignedOf f1 (find_or_none k1 search_maps 0) with
        | error e1 => simp only [ha] at h; cases h
        | ok w =>
            simp only [ha] at h
            cases hrest : buildInitVars search_maps tl with
            | error e1 => simp only [hrest] at h; cases h
            | ok iv' =>
                simp only [hrest] at h
                cases h
                simp only [Store.lookup, if_neg (fun hc : k1 = key => hk.1 hc.symm)]
                exact ih hrest key hk.2
      · rw [if_neg hcond] at h
        exact ih h key hk.2

/-- What `create_from_objects` assembles for each registry field: the
first non-null value across override and sources (enum-coerced for enum
fields) when one exists or the field is required; nothing otherwise. -/
theorem buildInitVars_lookup {search_maps : List Store} :
    ∀ {fields : List (String × Field)} {iv : Store},
      (fields.map Prod.fst).Nodup →
      buildInitVars search_maps fields = .ok iv →
      ∀ key f, (key, f) ∈ fields →
        (¬(f.is_required = true ∨ find_or_none key search_maps 0 ≠ Val.none) →
          iv.lookup key = Option.none) ∧
        (f.is_required = true ∨ find_or_none key search_maps 0 ≠ Val.none →
          ∃ w, assignedOf f (find_or_none key search_maps 0) = .ok w ∧
            iv.lookup key = some w) := by
  intro fields
  induction fields with
  | nil => intro iv _ _ key f hmem; cases hmem
  | cons hd tl ih =>
      intro iv hnd h key f hmem
      obtain ⟨k1, f1⟩ := hd
      simp only [List.map_cons, List.nodup_cons] at hnd
      simp only [buildInitVars] at h
      rcases List.mem_cons.mp hmem with heq | hmemtl
      · cases heq
        by_cases hcond : find_or_none key search_maps 0 ≠ Val.none ∨
            f.is_required = true
        · rw [if_pos hcond] at h
          cases ha : assignedOf f (find_or_none key search_maps 0) with
          | error e1 => simp only [ha] at h; cases h
          | ok w =>
              simp only [ha] at h
              cases hrest : buildInitVars search_maps tl with
              | error e1 => simp only [hrest] at h; cases h
              | ok iv' =>
                  simp only [hrest] at h
                  cases h
                  constructor
                  · intro hno
                    exact absurd (Or.symm hcond) (by tauto)
                  · intro _
                    exact ⟨w, rfl, by simp [Store.lookup]⟩
        · rw [if_neg hcond] at h
          constructor
          · intro _
            have hknotin : key ∉ tl.map Prod.fst := hnd.1
            exact buildInitVars_lookup_notmem h key hknotin
          · intro hyes
            exact absurd (Or.symm hyes) hcond
      · by_cases hcond : find_or_none k1 search_maps 0 ≠ Val.none ∨
            f1.is_required = true
        · rw [if_pos hcond] at h
          cases ha : assignedOf f1 (find_or_none k1 search_maps 0) with
          | error e1 => simp only [ha] at h; cases h
          | ok w =>
              simp only [ha] at h
              cases hrest : buildInitVars search_maps tl with
              | error e1 => simp only [hrest] at h; cases h
              | ok iv' =>
                  simp only [hrest] at h
                  cases h
                  have hkne : ¬(k1 = key) := fun hc =>
                    hnd.1 (hc ▸ (List.mem_map.mpr ⟨(key, f), hmemtl, rfl⟩))
                  have := ih hnd.2 hrest key f hmemtl
                  constructor
                  · intro hno
                    simp only [Store.lookup, if_neg hkne]
                    exact this.1 hno
                  · intro hyes
                    obtain ⟨w', hw', hlw⟩ := this.2 hyes
                    exact ⟨w', hw', by simp only [Store.lookup, if_neg hkne]; exact hlw⟩
        · rw [if_neg hcond] at h
          exact ih hnd.2 h key f hmemtl

/-! ### Helper lemmas: class definition -/

/-- A successful enum-class call returns a member object. -/
theorem enumCall_ok_shape {ecls : EnumCls} {v w : Val}
    (h : enumCall ecls v = .ok w) : ∃ cid idx, w = .vmember cid idx := by
  unfold enumCall at h
  by_cases hi : isinstance v (.enumTy ecls) = true
  · rw [if_pos hi] at h
    cases h
    exact isinstance_enum_shape hi |>.elim (fun idx hidx => ⟨ecls.id, idx, hidx.1⟩)
  · rw [if_neg hi] at h
    cases hl : enumLookup v ecls.values with
    | none => rw [hl] at h; cases h
    | some i =>
        rw [hl] at h
        cases h
        exact ⟨ecls.id, i, rfl⟩

/-- Pre-converting a non-null value yields a non-null value. -/
theorem preConvertEnum_ok_ne_none {ecls : EnumCls} {v w : Val}
    (hv : v ≠ Val.none) (h : preConvertEnum ecls v = .ok w) :
    w ≠ Val.none := by
  unfold preConvertEnum at h
  by_cases hc : (v ≠ Val.none && !(isinstance v (.enumTy ecls))) = true
  · rw [if_pos hc] at h
    obtain ⟨cid, idx, rfl⟩ := enumCall_ok_shape h
    intro hcon
    cases hcon
  · rw [if_neg hc] at h
    cases h
    exact hv

/-- `Field.validate` raising on a rejected custom validation. -/
theorem Field.validate_validator_error {f : Field} {v : Val} {p : Val → Bool}
    (hi : isinstance v f.type = true) (hp : f.validation = some p)
    (hpv : p v = false) :
    f.validate v = .error (.validationError (some f.nameOrUndefined) (some v)
      Option.none Option.none) := by
  unfold Field.validate
  rw [hi]
  simp [hp, hpv]

/-- A field object that finished construction has a valid default. -/
theorem mkField_ok_default {d : FieldDecl} {f : Field}
    (h : mkField d = .ok f) :
    f.default = Val.none ∨ f.validate f.default = .ok true := by
  unfold mkField at h
  cases hpre : (match d.kind with
                | .enumF ecls => preConvertEnum ecls d.default
                | _ => .ok d.default : Except PyErr Val) with
  | error e => rw [hpre] at h; cases h
  | ok dflt =>
      rw [hpre] at h
      dsimp only [] at h
      by_cases hne : dflt ≠ Val.none
      · rw [if_pos hne] at h
        cases hval : Field.validate
            { kind := d.kind, default := dflt, required := d.required,
              validation := d.validation, in_dump := d.in_dump,
              name := Option.none } dflt with
        | error e => simp only [hval] at h; cases h
        | ok b =>
            simp only [hval] at h
            cases h
            cases b with
            | false =>
                obtain ⟨-, hnone, -⟩ :=
                  (Field.validate_ok_false_iff _ _).mp hval
                exact absurd hnone hne
            | true => exact Or.inr hval
      · rw [if_neg hne] at h
        cases h
        exact Or.inl (not_not.mp hne)

/-- A declaration whose non-null default fails its type check or custom
validator cannot produce a field object. -/
theorem mkField_err_of_bad {d : FieldDecl}
    (hne : d.default ≠ Val.none) (hbad : declDefaultBad d = true) :
    ∃ e, mkField d = .error e := by
  unfold mkField
  unfold declDefaultBad at hbad
  cases hpre : (match d.kind with
                | .enumF ecls => preConvertEnum ecls d.default
                | _ => .ok d.default : Except PyErr Val) with
  | error e => exact ⟨e, rfl⟩
  | ok dflt =>
      rw [hpre] at hbad
      dsimp only [] at hbad
      dsimp only []
      have hdne : dflt ≠ Val.none := by
        cases hk : d.kind with
        | enumF ecls =>
            rw [hk] at hpre
            exact preConvertEnum_ok_ne_none hne hpre
        | intF => rw [hk] at hpre; cases hpre; exact hne
        | stringF => rw [hk] at hpre; cases hpre; exact hne
        | numberF => rw [hk] at hpre; cases hpre; exact hne
      rw [if_pos hdne]
      set f0 : Field :=
        { kind := d.kind, default := dflt, required := d.required,
          validation := d.validation, in_dump := d.in_dump,
          name := Option.none } with hf0
      have hty : f0.type = d.kind.ty := rfl
      by_cases hi : isinstance dflt d.kind.ty = true
      · rw [hi] at hbad
        simp only [Bool.not_true, Bool.false_or] at hbad
        cases hp : d.validation with
        | none => simp only [hp] at hbad; cases hbad
        | some p =>
            simp only [hp, Bool.not_eq_true'] at hbad
            rw [Field.validate_validator_error (f := f0)
              (by rw [hty]; exact hi) (show f0.validation = some p from hp)
              hbad]
            exact ⟨_, rfl⟩
      · have hi2 : isinstance dflt d.kind.ty = false := by
          cases hii : isinstance dflt d.kind.ty
          · rfl
          · exact absurd hii hi
        have hi' : isinstance dflt f0.type = false := by rw [hty]; exact hi2
        rw [Field.validate_type_error f0 dflt hi' (fun hc => hdne hc.1)]
        exact ⟨_, rfl⟩

/-- Fields collected from a finished class body all carry valid
defaults. -/
theorem declsToFields_defaults :
    ∀ {decls : List (String × FieldDecl)} {fs : List (String × Field)},
      declsToFields decls = .ok fs →
      ∀ nf ∈ fs, nf.2.default = Val.none ∨
        nf.2.validate nf.2.default = .ok true := by
  intro decls
  induction decls with
  | nil =>
      intro fs h nf hnf
      cases h
      cases hnf
  | cons hd tl ih =>
      intro fs h nf hnf
      obtain ⟨n, d⟩ := hd
      simp only [declsToFields] at h
      cases hmk : mkField d with
      | error e => simp only [hmk] at h; cases h
      | ok f =>
          simp only [hmk] at h
          cases hrest : declsToFields tl with
          | error e => simp only [hrest] at h; cases h
          | ok fs' =>
              simp only [hrest] at h
              cases h
              rcases List.mem_cons.mp hnf with heq | htl
              · cases heq
                rcases mkField_ok_default hmk with hnone | hval
                · exact Or.inl hnone
                · exact Or.inr ((Field.validate_set_name f n f.default).mpr hval)
              · exact ih hrest nf htl

/-- A bad declaration anywhere in the class body aborts the collection of
the field registry. -/
theorem declsToFields_err_of :
    ∀ {decls : List (String × FieldDecl)} {n : String} {d : FieldDecl},
      (n, d) ∈ decls → ∀ {e0 : PyErr}, mkField d = .error e0 →
      ∃ e, declsToFields decls = .error e := by
  intro decls
  induction decls with
  | nil => intro _ _ hmem; cases hmem
  | cons hd tl ih =>
      intro n d hmem e0 hmk
      obtain ⟨n1, d1⟩ := hd
      simp only [declsToFields]
      rcases List.mem_cons.mp hmem with heq | htl
      · cases heq
        rw [hmk]
        exact ⟨e0, rfl⟩
      · cases hmk1 : mkField d1 with
        | error e1 => exact ⟨e1, rfl⟩
        | ok f1 =>
            obtain ⟨e, he⟩ := ih htl hmk
            rw [he]
            exact ⟨e, rfl⟩

/-- A class that finished definition has only valid defaults. -/
theorem mkEntityCls_defaultsOK {id : Nat} {decls : List (String × FieldDecl)}
    {cls : EntityCls} (h : mkEntityCls id decls = .ok cls) :
    cls.defaultsOK := by
  unfold mkEntityCls at h
  cases hd : declsToFields decls with
  | error e => rw [hd] at h; cases h
  | ok fs =>
      rw [hd] at h
      cases h
      exact declsToFields_defaults hd

/-- A bad default anywhere in the class body prevents the class from
being created. -/
theorem mkEntityCls_err_of_bad {id : Nat} {decls : List (String × FieldDecl)}
    {n : String} {d : FieldDecl} (hmem : (n, d) ∈ decls)
    (hne : d.default ≠ Val.none) (hbad : declDefaultBad d = true) :
    (mkEntityCls id decls).isOk = false := by
  obtain ⟨e0, hmk⟩ := mkField_err_of_bad hne hbad
  obtain ⟨e, he⟩ := declsToFields_err_of hmem hmk
  unfold mkEntityCls
  rw [he]
  rfl

/-! ### Helper lemmas: inversions and odds and ends -/

/-- A bound field's `getattr(self, 'name', 'undefined name')` is its
name. -/
theorem Field.nameOrUndefined_of_name {f : Field} {n : String}
    (h : f.name = some n) : f.nameOrUndefined = n := by
  simp [Field.nameOrUndefined, h]

/-- A descriptor read with neither a stored value nor a default raises
the "has not been set" `AttributeError` (through every variant). -/
theorem Field.getattr_missing {f : Field} {n : String} {s : Store}
    (hn : f.name = some n) (hl : s.lookup n = Option.none)
    (hd : f.default = Val.none) :
    Field.getattr f s =
      .error (.attributeError ("A value for " ++ n ++ " has not been set")) := by
  cases hk : f.kind
  case enumF ecls => simp only [Field.getattr, hk, Field.get_missing hn hl hd]
  all_goals simp only [Field.getattr, hk, Field.get_missing hn hl hd]

/-- A successful construction ran the assignment loop to the returned
store. -/
theorem Entity.init_ok_inv {cls : EntityCls} {kwargs s : Store}
    (h : Entity.init cls kwargs = .ok s) :
    initFields [] cls.fields kwargs = .ok s ∧
      Entity.validate cls s = .ok () := by
  unfold Entity.init at h
  cases hinit : initFields [] cls.fields kwargs with
  | error e => rw [hinit] at h; cases h
  | ok s' =>
      simp only [hinit] at h
      cases hval : Entity.validate cls s' with
      | error e => simp only [hval] at h; cases h
      | ok u =>
          simp only [hval] at h
          cases h
          cases u
          exact ⟨rfl, hval⟩

/-- A successful enum descriptor write factors through pre-conversion and
the base write. -/
theorem Field.setattr_enum_ok_inv {f : Field} {ecls : EnumCls}
    {s s' : Store} {v : Val} (hk : f.kind = .enumF ecls)
    (h : Field.setattr f s v = .ok s') :
    ∃ v', preConvertEnum ecls v = .ok v' ∧ Field.set f s v' = .ok s' := by
  simp only [Field.setattr, hk] at h
  cases hpre : preConvertEnum ecls v with
  | error e =>
      simp only [hpre] at h
      cases e <;> simp [Field.nameProp] at h <;>
        cases hname : f.name <;> simp [hname] at h
  | ok v' =>
      simp only [hpre] at h
      cases hset : Field.set f s v' with
      | error e =>
          simp only [hset] at h
          cases e <;> simp [Field.nameProp] at h <;>
            cases hname : f.name <;> simp [hname] at h
      | ok s'' =>
          simp only [hset] at h
          cases h
          exact ⟨v', rfl, hset⟩

/-- A successful enum descriptor read factors through the base read and
the member's `.value`. -/
theorem Field.getattr_enum_ok_inv {f : Field} {ecls : EnumCls}
    {s : Store} {v : Val} (hk : f.kind = .enumF ecls)
    (h : Field.getattr f s = .ok v) :
    ∃ m, Field.get f s = .ok m ∧ enumValue ecls m = .ok v := by
  simp only [Field.getattr, hk] at h
  cases hg : Field.get f s with
  | error e => simp only [hg] at h; cases h
  | ok m =>
      simp only [hg] at h
      exact ⟨m, rfl, h⟩

/-- A successful base read returns the stored value or the (non-null)
default. -/
theorem Field.get_ok_inv {f : Field} {n : String} {s : Store} {w : Val}
    (hn : f.name = some n) (h : Field.get f s = .ok w) :
    s.lookup n = some w ∨
      (s.lookup n = Option.none ∧ w = f.default ∧ f.default ≠ Val.none) := by
  unfold Field.get at h
  simp only [Field.nameProp_of_name hn] at h
  cases hl : Store.lookup s n with
  | some u =>
      simp only [hl] at h
      cases h
      exact Or.inl rfl
  | none =>
      simp only [hl] at h
      by_cases hd : f.default ≠ Val.none
      · rw [if_pos hd] at h
        cases h
        exact Or.inr ⟨rfl, rfl, hd⟩
      · rw [if_neg hd] at h
        cases h

/-- A successful member `.value` read determines the member and value. -/
theorem enumValue_ok_inv {ecls : EnumCls} {m v : Val}
    (h : enumValue ecls m = .ok v) :
    ∃ idx, ∃ hlt : idx < ecls.values.length,
      m = .vmember ecls.id idx ∧ ecls.values.get ⟨idx, hlt⟩ = v := by
  cases m <;> simp only [enumValue] at h
  case vmember cid idx =>
      by_cases hc : cid = ecls.id ∧ idx < ecls.values.length
      · rw [dif_pos hc] at h
        cases h
        exact ⟨idx, hc.2, by rw [hc.1], rfl⟩
      · rw [dif_neg hc] at h
        cases h
  all_goals cases h

/-- Pre-conversion of a non-null, non-member value is the enum-class
call. -/
theorem preConvertEnum_not_instance {ecls : EnumCls} {v : Val}
    (hv : v ≠ Val.none) (hni : isinstance v (.enumTy ecls) = false) :
    preConvertEnum ecls v = enumCall ecls v := by
  unfold preConvertEnum
  rw [if_pos (by simp [hv, hni])]

/-- Pre-conversion passes `None` through. -/
theorem preConvertEnum_none (ecls : EnumCls) :
    preConvertEnum ecls Val.none = .ok Val.none := by
  simp [preConvertEnum]

/-- Assigning `None` to a non-required field removes the stored value
(through every variant). -/
theorem Field.setattr_none_optional {f : Field} {n : String} {s : Store}
    (hn : f.name = some n) (hr : f.is_required = false) :
    Field.setattr f s Val.none = .ok (Store.erase s n) := by
  have hval : f.validate Val.none = .ok false :=
    (Field.validate_ok_false_iff f Val.none).mpr
      ⟨by rw [isinstance_none], rfl, hr⟩
  have hset : Field.set f s Val.none = .ok (Store.erase s n) :=
    Field.set_of_false hval hn
  cases hk : f.kind
  case enumF ecls =>
      simp only [Field.setattr, hk, preConvertEnum_none, hset]
  all_goals simp only [Field.setattr, hk, hset]

/-- Restriction to the registry preserves the lookup of registry keys. -/
theorem restrictToRegistry_lookup (cls : EntityCls) (kwargs : Store)
    {key : String} (hk : key ∈ cls.fields.map Prod.fst) :
    (restrictToRegistry cls kwargs).lookup key = kwargs.lookup key := by
  unfold restrictToRegistry
  induction kwargs with
  | nil => rfl
  | cons hd tl ih =>
      obtain ⟨a, b⟩ := hd
      simp only [List.filter_cons]
      by_cases ha : a = key
      · subst ha
        rw [if_pos (by simpa using hk)]
        simp [Store.lookup]
      · by_cases hmem : a ∈ cls.fields.map Prod.fst
        · rw [if_pos (by simpa using hmem)]
          simp only [Store.lookup, if_neg ha]
          exact ih
        · rw [if_neg (by simpa using hmem)]
          rw [ih]
          simp only [Store.lookup, if_neg ha]

/-- The assignment loop only consults the data at registry keys. -/
theorem initFields_congr {kwargs kwargs' : Store} :
    ∀ (fields : List (String × Field)),
      (∀ nf ∈ fields, kwargs.lookup nf.1 = kwargs'.lookup nf.1) →
      ∀ s, initFields s fields kwargs = initFields s fields kwargs' := by
  intro fields
  induction fields with
  | nil => intro _ s; rfl
  | cons hd tl ih =>
      intro hagree s
      obtain ⟨key, f⟩ := hd
      have htl := fun nf hnf => hagree nf (List.mem_cons_of_mem _ hnf)
      have hkey := hagree (key, f) (List.mem_cons_self _ _)
      simp only [initFields, hkey]
      cases hkw : kwargs'.lookup key with
      | none => exact ih htl s
      | some v =>
          dsimp only []
          cases hset : Field.setattr f s v with
          | error e => rfl
          | ok s1 => exact ih htl s1

/-- Memberships of the doctest truck's fields in its registry. -/
theorem color_mem : ("color", colorField) ∈ Truck.fields := by
  dsimp only [Truck]
  exact List.mem_cons_self _ _

/-- Membership of the weight field. -/
theorem weight_mem : ("weight", weightField) ∈ Truck.fields := by
  dsimp only [Truck]
  exact List.mem_cons_of_mem _ (List.mem_cons_self _ _)

/-- Membership of the wheels field. -/
theorem wheels_mem : ("wheels", wheelsField) ∈ Truck.fields := by
  dsimp only [Truck]
  exact List.mem_cons_of_mem _ (List.mem_cons_of_mem _ (List.mem_cons_self _ _))

/-- Membership of the optional field of `OptOnly`. -/
theorem optX_mem : ("x", optXField) ∈ OptOnly.fields := by
  dsimp only [OptOnly]
  exact List.mem_cons_self _ _

/-- The enum well-formedness components of an enum field. -/
theorem Field.enumWF_elim {f : Field} {ecls : EnumCls}
    (hwf : f.enumWF) (hk : f.kind = .enumF ecls) :
    ecls.values.Nodup ∧
      ∀ w ∈ ecls.values, isinstance w (.enumTy ecls) = false := by
  unfold Field.enumWF at hwf
  rw [hk] at hwf
  exact hwf

/-! ### Claim theorems -/

/-- C1: for every entity instance, `dump()` returns exactly the mapping
that contains one (name, value) entry per field that is marked in-dump
AND marked required AND whose retrieved (get-intercepted) value is
non-null; a field that is in-dump but not required never appears in the
dump output, even when it holds a value. -/
theorem C1_dump_contract (cls : EntityCls) (s d : Store)
    (hwf : cls.WF) (hd : Entity.dump cls s = .ok d) :
    (∀ k v, ((k, v) ∈ d ↔
      ∃ f, (k, f) ∈ cls.fields ∧ f.in_dump = true ∧ f.is_required = true ∧
        Field.getattr f s = .ok v ∧ v ≠ Val.none)) ∧
    (d.map Prod.fst).Nodup :=
  ⟨dumpFields_mem s cls.fields hwf.2 d hd,
   List.Nodup.sublist (dumpFields_keys_sublist s cls.fields hwf.2 d hd) hwf.1⟩

/-- Witness for C1: the doctest truck dumps `color` (in-dump, required,
non-null), and the optional in-dump field `x` of `OptOnly` is excluded
from dump even while it holds the value 5. -/
theorem C1_dump_contract_witness :
    ("color", Val.vint 0) ∈ truckDumpd ∧
    ∀ d, Entity.dump OptOnly [("x", Val.vint 5)] = .ok d →
      ("x", Val.vint 5) ∉ d := by
  constructor
  · exact ((C1_dump_contract Truck truckStore truckDumpd (by decide)
      (by decide)).1 "color" (Val.vint 0)).mpr
      ⟨colorField, color_mem, by decide, by decide, by decide, by decide⟩
  · intro d hd hc
    obtain ⟨f, hf, -, h2, -, -⟩ :=
      ((C1_dump_contract OptOnly [("x", Val.vint 5)] d (by decide) hd).1
        "x" (Val.vint 5)).mp hc
    rcases List.mem_cons.mp hf with he | h0
    · cases he
      exact absurd h2 (by decide)
    · cases h0

/-- C2: for every field whose declared default is non-null and fails that
field's type check or custom validator, defining an entity class
containing that field raises at class-definition time, so the class is
never created; and every class that was created carries only validated
defaults, so the failure is never deferred to first use of the default. -/
theorem C2_default_fail_fast :
    (∀ (id : Nat) (decls : List (String × FieldDecl)) (n : String)
        (d : FieldDecl), (n, d) ∈ decls → d.default ≠ Val.none →
        declDefaultBad d = true → (mkEntityCls id decls).isOk = false) ∧
    (∀ (id : Nat) (decls : List (String × FieldDecl)) (cls : EntityCls),
        mkEntityCls id decls = .ok cls → cls.defaultsOK) :=
  ⟨fun _ _ _ _ hmem hne hbad => mkEntityCls_err_of_bad hmem hne hbad,
   fun _ _ _ h => mkEntityCls_defaultsOK h⟩

/-- Witness for C2: a class body with `IntField(default="not an int")`
never finishes definition, and the doctest `Truck` class (whose `wheels`
default 4 is valid) is created with every default validated. -/
theorem C2_default_fail_fast_witness :
    (mkEntityCls 9 [("x", badDecl)]).isOk = false ∧ Truck.defaultsOK :=
  ⟨C2_default_fail_fast.1 9 [("x", badDecl)] "x" badDecl
      (List.mem_cons_self _ _) (by decide) (by decide),
   C2_default_fail_fast.2 1 truckDecls Truck rfl⟩

/-- Counterexample for C3 as stated: an entity class whose only field is
optional has every required field (vacuously) supplied by the empty
keyword set, yet construction raises `reduce`'s `TypeError` instead of
succeeding — `Entity.validate` runs `reduce` on an empty generator. -/
theorem C3_counterexample :
    (OptOnly.fields.all (fun nf => !nf.2.is_required)) = true ∧
    Entity.init OptOnly [] =
      .error (.typeError "reduce() of empty sequence with no initial value") := by
  exact ⟨by decide, by decide⟩

/-- C3 (amended): for every entity class with at least one required
field: constructing with keyword data that omits a required field having
no default raises a `ValidationError` carrying the attribute error's
message and no field name, and no instance is produced; constructing
with every required field supplied (optional fields omitted) succeeds
and returns the assembled store. -/
theorem C3_required_field_enforcement (cls : EntityCls) (kwargs : Store)
    (hwf : cls.WF) :
    (∀ s, initFields [] cls.fields kwargs = .ok s →
      ∀ nf ∈ cls.fields, nf.2.is_required = true →
        kwargs.lookup nf.1 = Option.none → nf.2.default = Val.none →
        ∃ m, Entity.init cls kwargs =
          .error (.validationError Option.none Option.none Option.none
            (some m))) ∧
    ((∃ nf ∈ cls.fields, nf.2.is_required = true) →
      (∀ nf ∈ cls.fields, nf.2.is_required = true →
        (kwargs.lookup nf.1).isSome = true) →
      ∀ s, initFields [] cls.fields kwargs = .ok s →
        Entity.init cls kwargs = .ok s) := by
  constructor
  · rintro s hinit ⟨key, f⟩ hmem hreq hkw hdef
    have hn : f.name = some key := hwf.2 (key, f) hmem
    have hlook : s.lookup key = Option.none := by
      have := (initFields_at_key kwargs cls.fields hwf.1 hwf.2 hmem [] s
        hinit).1 hkw
      rw [this]
      rfl
    have hget := Field.getattr_missing hn hlook hdef
    obtain ⟨m, hm⟩ := Entity.validate_err_of hmem hreq hget
    refine ⟨m, ?_⟩
    simp only [Entity.init, hinit, hm]
  · rintro ⟨nf0, hnf0, hr0⟩ hall s hinit
    have hgetall : ∀ nf ∈ cls.fields, nf.2.is_required = true →
        ∃ u, Field.getattr nf.2 s = .ok u := by
      rintro ⟨key, f⟩ hmem hreq
      obtain ⟨v, hv⟩ := Option.isSome_iff_exists.mp (hall (key, f) hmem hreq)
      obtain ⟨w, hlw, hvw⟩ :=
        initFields_required_some hwf.1 hwf.2 hinit hmem hreq hv
      exact Field.getattr_stored_ok (hwf.2 (key, f) hmem) hvw hlw
    have hok := Entity.validate_ok_of ⟨nf0, hnf0, hr0⟩ hgetall
    simp only [Entity.init, hinit, hok]

/-- Witness for C3 (amended): constructing the doctest truck without its
`weight` fails with a nameless `ValidationError`; constructing it with
all required fields supplied succeeds. -/
theorem C3_required_field_enforcement_witness :
    (Entity.init Truck [("color", Val.vmember 0 0)]).isOk = false ∧
    Entity.init Truck truckKwargs = .ok truckStore := by
  constructor
  · obtain ⟨m, hm⟩ :=
      (C3_required_field_enforcement Truck [("color", Val.vmember 0 0)]
        (by decide)).1 [("color", Val.vmember 0 0)] rfl
        ("weight", weightField) weight_mem (by decide) (by decide) (by decide)
    rw [hm]
    rfl
  · exact (C3_required_field_enforcement Truck truckKwargs (by decide)).2
      ⟨("color", colorField), color_mem, by decide⟩ (by decide)
      truckStore rfl

/-- Counterexample for C6 as stated: assigning the raw value 0 (an int,
not an instance of the declared enumeration type) to the doctest truck's
enum field raises nothing — `EnumField.__set__` coerces it to a member
and stores it. -/
theorem C6_counterexample :
    isinstance (Val.vint 0) colorField.type = false ∧
    Field.setattr colorField [] (Val.vint 0) =
      .ok [("color", Val.vmember 0 0)] := by
  exact ⟨by decide, by decide⟩

/-- C6 (amended): for every coercion-free field (Int/String/Number) of a
live instance, assigning a value whose runtime type does not match the
declared type raises a `ValidationError` carrying the field name, the
offending value and the expected type (leaving the store unchanged, as
no new store is produced); and for every field, assigning `None` to a
non-required field succeeds and removes any previously stored value
instead of storing `None`. -/
theorem C6_type_enforcement (f : Field) (n : String) (s : Store) (v : Val)
    (hn : f.name = some n) :
    (f.is_enum = false → isinstance v f.type = false →
      ¬(v = Val.none ∧ f.is_required = false) →
      Field.setattr f s v =
        .error (.validationError (some n) (some v) (some f.type)
          Option.none)) ∧
    (v = Val.none → f.is_required = false →
      Field.setattr f s v = .ok (Store.erase s n)) := by
  constructor
  · intro he hi hno
    rw [Field.setattr_base he]
    rw [Field.set_of_error (Field.validate_type_error f v hi hno),
      Field.nameOrUndefined_of_name hn]
  · intro hv hr
    subst hv
    exact Field.setattr_none_optional hn hr

/-- Witness for C6 (amended): a string assigned to the truck's number
field raises the typed `ValidationError`; `None` assigned to the
optional field of `OptOnly` erases its stored value. -/
theorem C6_type_enforcement_witness :
    Field.setattr weightField [] (Val.vstr "heavy") =
      .error (.validationError (some "weight") (some (Val.vstr "heavy"))
        (some PTy.numberTy) Option.none) ∧
    Field.setattr optXField [("x", Val.vint 5)] Val.none = .ok [] := by
  constructor
  · exact (C6_type_enforcement weightField "weight" [] (Val.vstr "heavy")
      rfl).1 (by decide) (by decide) (by decide)
  · exact (C6_type_enforcement optXField "x" [("x", Val.vint 5)] Val.none
      rfl).2 rfl (by decide)

/-- C7: for every `EnumField`: setting a raw value that equals some
member's underlying value stores the corresponding member, and
retrieval from the resulting store returns the member's raw underlying
value, not the member object; setting a raw value with no matching
member raises a `ValidationError`. -/
theorem C7_enum_coercion (f : Field) (ecls : EnumCls) (n : String)
    (s : Store) (v : Val) (hk : f.kind = .enumF ecls) (hn : f.name = some n)
    (hval : f.validation = Option.none)
    (hni : isinstance v (.enumTy ecls) = false) (hvn : v ≠ Val.none) :
    (∀ i, enumLookup v ecls.values = some i →
      Field.setattr f s v = .ok (Store.insert s n (.vmember ecls.id i)) ∧
      Field.getattr f (Store.insert s n (.vmember ecls.id i)) = .ok v) ∧
    (enumLookup v ecls.values = Option.none →
      Field.setattr f s v =
        .error (.validationError (some n) (some v) (some f.type)
          Option.none)) := by
  have hpre0 : preConvertEnum ecls v = enumCall ecls v :=
    preConvertEnum_not_instance hvn hni
  constructor
  · intro i hi
    obtain ⟨hlt, hget⟩ := enumLookup_get hi
    have hcall : enumCall ecls v = .ok (.vmember ecls.id i) := by
      unfold enumCall
      simp [hni, hi]
    have hty : f.type = .enumTy ecls := by rw [Field.type, hk]; rfl
    have hvmem : f.validate (.vmember ecls.id i) = .ok true := by
      apply (Field.validate_ok_true_iff _ _).mpr
      refine ⟨?_, ?_⟩
      · rw [hty]
        simp [isinstance, hlt]
      · intro p hp
        rw [hval] at hp
        cases hp
    have hset : Field.set f s (.vmember ecls.id i) =
        .ok (Store.insert s n (.vmember ecls.id i)) :=
      Field.set_of_true hvmem hn
    constructor
    · simp only [Field.setattr, hk, hpre0, hcall, hset]
    · have hlk : (Store.insert s n (.vmember ecls.id i)).lookup n =
          some (.vmember ecls.id i) := by
        rw [Store.lookup_insert, if_pos rfl]
      simp only [Field.getattr, hk, Field.get_stored hn hlk,
        enumValue_member hlt, hget]
  · intro hnone
    have hcall : enumCall ecls v = .error .valueError := by
      unfold enumCall
      simp [hni, hnone]
    simp only [Field.setattr, hk, hpre0, hcall, Field.nameProp_of_name hn]

/-- Witness for C7: the truck's color field coerces the raw value 2 to
the member `red`, retrieval returns 2 again, and the raw value 7 has no
member and raises the typed `ValidationError`. -/
theorem C7_enum_coercion_witness :
    Field.setattr colorField [] (Val.vint 2) =
      .ok [("color", Val.vmember 0 2)] ∧
    Field.getattr colorField [("color", Val.vmember 0 2)] =
      .ok (Val.vint 2) ∧
    Field.setattr colorField [] (Val.vint 7) =
      .error (.validationError (some "color") (some (Val.vint 7))
        (some colorField.type) Option.none) := by
  have h := C7_enum_coercion colorField Color "color" [] (Val.vint 2)
    rfl rfl rfl (by decide) (by decide)
  have h7 := C7_enum_coercion colorField Color "color" [] (Val.vint 7)
    rfl rfl rfl (by decide) (by decide)
  obtain ⟨hset, hget⟩ := h.1 2 (by decide)
  exact ⟨hset, hget, h7.2 (by decide)⟩

/-- C8: two entity instances compare equal iff they have the same
concrete class and every registry field's retrieval on both yields equal
values; an instance's hash is the sum over registry fields of the hash
of the retrieved value, a failing retrieval contributing the hash of the
`None` sentinel rather than raising. -/
theorem C8_structural_eq_hash (cls : EntityCls) (s1 s2 : Store)
    (i1 i2 : Inst) :
    (Entity.eq ⟨cls, s1⟩ ⟨cls, s2⟩ = .ok true ↔
      ∀ nf ∈ cls.fields, ∃ v, Field.getattr nf.2 s1 = .ok v ∧
        Field.getattr nf.2 s2 = .ok v) ∧
    (i1.cls.id ≠ i2.cls.id → Entity.eq i1 i2 = .ok false) ∧
    (Entity.hash ⟨cls, s1⟩ =
      (cls.fields.map
        (fun nf => pyHash (Field.getattrOr nf.2 s1 Val.none))).sum) := by
  refine ⟨?_, ?_, hashFields_eq_sum s1 cls.fields⟩
  · unfold Entity.eq
    rw [if_neg (by simp)]
    exact eqFields_ok_true_iff s1 s2 cls.fields
  · intro hne
    unfold Entity.eq
    rw [if_pos hne]

/-- Witness for C8: two doctest trucks whose stores list the same
bindings in different order retrieve equal values on every field; an
instance of a different class compares unequal; the truck's hash is the
per-field sum. -/
theorem C8_structural_eq_hash_witness :
    (∀ nf ∈ Truck.fields, ∃ v, Field.getattr nf.2 truckStore = .ok v ∧
      Field.getattr nf.2 truckStorePerm = .ok v) ∧
    Entity.eq ⟨Truck, truckStore⟩ ⟨OptOnly, []⟩ = .ok false ∧
    Entity.hash ⟨Truck, truckStore⟩ =
      (Truck.fields.map
        (fun nf => pyHash (Field.getattrOr nf.2 truckStore Val.none))).sum := by
  have h := C8_structural_eq_hash Truck truckStore truckStorePerm
    ⟨Truck, truckStore⟩ ⟨OptOnly, []⟩
  exact ⟨h.1.mp (by decide), h.2.1 (by decide), h.2.2⟩

/-- C9: for every entity class, constructing (directly or via `load`)
from data containing keys outside the field registry behaves exactly as
constructing from the same data with the unknown keys removed — the
unknown keys are silently ignored. -/
theorem C9_unknown_keys_ignored (cls : EntityCls) (kwargs : Store) :
    Entity.init cls kwargs = Entity.init cls (restrictToRegistry cls kwargs) ∧
    Entity.load cls kwargs = Entity.load cls (restrictToRegistry cls kwargs) := by
  have hagree : ∀ nf ∈ cls.fields,
      kwargs.lookup nf.1 = (restrictToRegistry cls kwargs).lookup nf.1 :=
    fun nf hnf => (restrictToRegistry_lookup cls kwargs
      (List.mem_map.mpr ⟨nf, hnf, rfl⟩)).symm
  have hinit : initFields [] cls.fields kwargs =
      initFields [] cls.fields (restrictToRegistry cls kwargs) :=
    initFields_congr cls.fields hagree []
  constructor
  · unfold Entity.init
    rw [hinit]
  · unfold Entity.load Entity.init
    rw [hinit]

/-- The merge-construction scenario's `init_vars`, evaluated. -/
theorem cfoIv_eval : buildInitVars cfoMaps Truck.fields = .ok cfoIv := by
  rw [buildInitVars_eq_spec]
  decide

/-- C5: `createFromObjects` assigns each registry field the first
non-null value found by searching the overrides mapping first, then each
source object in the given order, treating an attribute absent from a
source and an attribute present with a null value identically as "keep
searching" (enum fields receive that value coerced through the
enumeration class, per the source's `field.type(value)`); a field for
which every source is exhausted without a non-null value is omitted from
construction when optional, so its descriptor read falls back to the
default. -/
theorem C5_priority_merge (cls : EntityCls) (objects : List Store)
    (override_fields : Store) (iv : Store) (hwf : cls.WF)
    (hiv : buildInitVars (override_fields :: objects) cls.fields = .ok iv) :
    (∀ key, find_or_none key (override_fields :: objects) 0 =
      firstNonNullSpec key (override_fields :: objects)) ∧
    (∀ nf ∈ cls.fields,
      (¬(nf.2.is_required = true ∨
          firstNonNullSpec nf.1 (override_fields :: objects) ≠ Val.none) →
        iv.lookup nf.1 = Option.none) ∧
      ((nf.2.is_required = true ∨
          firstNonNullSpec nf.1 (override_fields :: objects) ≠ Val.none) →
        ∃ w, assignedOf nf.2
            (firstNonNullSpec nf.1 (override_fields :: objects)) = .ok w ∧
          iv.lookup nf.1 = some w)) ∧
    (∀ s, Entity.create_from_objects cls objects override_fields = .ok s →
      ∀ nf ∈ cls.fields, nf.2.is_required = false →
        firstNonNullSpec nf.1 (override_fields :: objects) = Val.none →
        nf.2.default ≠ Val.none →
        Field.get nf.2 s = .ok nf.2.default) := by
  refine ⟨fun key => find_or_none_eq_spec key _, ?_, ?_⟩
  · rintro ⟨key, f⟩ hmem
    have h := buildInitVars_lookup hwf.1 hiv key f hmem
    rw [find_or_none_eq_spec key (override_fields :: objects)] at h
    exact h
  · rintro s hs ⟨key, f⟩ hmem hreq hfind hdef
    simp only [Entity.create_from_objects] at hs
    cases hb : buildInitVars (override_fields :: objects) cls.fields with
    | error e => simp only [hb] at hs; cases hs
    | ok iv2 =>
        simp only [hb] at hs
        have hcond : ¬(f.is_required = true ∨
            find_or_none key (override_fields :: objects) 0 ≠ Val.none) := by
          simp [hreq, find_or_none_eq_spec, hfind]
        have hlk : iv2.lookup key = Option.none :=
          (buildInitVars_lookup hwf.1 hb key f hmem).1 hcond
        obtain ⟨hinit, -⟩ := Entity.init_ok_inv hs
        have hn := hwf.2 (key, f) hmem
        have hskey : s.lookup key = Option.none := by
          have := (initFields_at_key iv2 cls.fields hwf.1 hwf.2 hmem [] s
            hinit).1 hlk
          rw [this]
          rfl
        exact Field.get_default hn hskey hdef

/-- Witness for C5: merging `sourceA`, `sourceB` under `overrideW` gives
the override's weight, `sourceA`'s color (coerced to the member), and —
since `sourceA`'s wheels is null — `sourceB`'s wheels. -/
theorem C5_priority_merge_witness :
    cfoIv.lookup "color" = some (Val.vmember 0 1) ∧
    cfoIv.lookup "weight" = some (Val.vfloat 444) ∧
    cfoIv.lookup "wheels" = some (Val.vint 6) := by
  have h := C5_priority_merge Truck [sourceA, sourceB] overrideW cfoIv
    (by decide) cfoIv_eval
  obtain ⟨wc, hwc, hlc⟩ :=
    (h.2.1 ("color", colorField) color_mem).2 (Or.inl (by decide))
  obtain ⟨ww, hww, hlw⟩ :=
    (h.2.1 ("weight", weightField) weight_mem).2 (Or.inl (by decide))
  obtain ⟨wh, hwh, hlh⟩ :=
    (h.2.1 ("wheels", wheelsField) wheels_mem).2 (Or.inl (by decide))
  have hceq := Except.ok.inj ((by decide :
    assignedOf colorField
      (firstNonNullSpec "color" (overrideW :: [sourceA, sourceB])) =
      .ok (Val.vmember 0 1)).symm.trans hwc)
  have hweq := Except.ok.inj ((by decide :
    assignedOf weightField
      (firstNonNullSpec "weight" (overrideW :: [sourceA, sourceB])) =
      .ok (Val.vfloat 444)).symm.trans hww)
  have hheq := Except.ok.inj ((by decide :
    assignedOf wheelsField
      (firstNonNullSpec "wheels" (overrideW :: [sourceA, sourceB])) =
      .ok (Val.vint 6)).symm.trans hwh)
  rw [← hceq] at hlc
  rw [← hweq] at hlw
  rw [← hheq] at hlh
  exact ⟨hlc, hlw, hlh⟩

/-- Counterexample for C10 as stated: with an enumeration that has a
`None`-valued member (`class E(Enum): x = None`, legal Python), the
coercion `E(None)` of the null placeholder succeeds, so
`create_from_objects` with no sources produces a live instance instead
of raising `ValueError`. -/
theorem C10_counterexample :
    Val.none ∈ NoneEnum.values ∧
    Entity.create_from_objects NoneEnt [] [] =
      .ok [("e", Val.vmember 4 0)] := by
  refine ⟨by decide, ?_⟩
  simp only [Entity.create_from_objects]
  rw [buildInitVars_eq_spec]
  decide

/-- C10 (amended): for every entity class containing a required
`EnumField` over an enumeration none of whose members has a null
underlying value, calling `createFromObjects` when no override and no
source yields a non-null value for that field raises the enumeration's
plain `ValueError` (from coercing the null placeholder into the
enumeration type), not a `ValidationError`, and no instance is
produced. -/
theorem C10_required_enum_merge (cls : EntityCls) (objects : List Store)
    (override_fields : Store) (key : String) (f : Field) (ecls : EnumCls)
    (hmem : (key, f) ∈ cls.fields) (hk : f.kind = .enumF ecls)
    (hreq : f.is_required = true) (hnn : Val.none ∉ ecls.values)
    (hfind : firstNonNullSpec key (override_fields :: objects) = Val.none) :
    Entity.create_from_objects cls objects override_fields =
      .error .valueError := by
  have hfon : find_or_none key (override_fields :: objects) 0 = Val.none := by
    rw [find_or_none_eq_spec, hfind]
  have hassign : assignedOf f (find_or_none key (override_fields :: objects) 0)
      = .error .valueError := by
    rw [hfon]
    simp only [assignedOf, hk]
    unfold enumCall
    simp [isinstance_none, enumLookup_none_iff.mpr hnn]
  obtain ⟨e, he⟩ := buildInitVars_err_of hmem hreq hassign
  have hev := buildInitVars_err he
  subst hev
  simp only [Entity.create_from_objects, he]

/-- Witness for C10 (amended): merging nothing into the doctest truck
(required enum `color`, members 0/1/2) fails with the plain
`ValueError`. -/
theorem C10_required_enum_merge_witness :
    Entity.create_from_objects Truck [] [] = .error .valueError :=
  C10_required_enum_merge Truck [] [] "color" colorField Color color_mem rfl
    (by decide) (by decide) (by decide)

/-- Counterexample for C4 as stated: a class with a required, defaultless
field excluded from dump constructs fine, but `load(instance.dump())`
yields no instance at all — the dump omits the field and the reload's
required-field check fails. -/
theorem C4_counterexample :
    Entity.init Hidden [("a", Val.vint 1)] = .ok [("a", Val.vint 1)] ∧
    Entity.dump Hidden [("a", Val.vint 1)] = .ok [] ∧
    (Entity.load Hidden []).isOk = false :=
  ⟨by decide, by decide, by decide⟩

/-- C4 (amended): for every entity class (with Python-well-formed
enumerations) and every construction whose dump reloads successfully,
the reloaded instance's required in-dump fields retrieve the same values
as the original; fields excluded from dump are outside the guarantee
(they may differ or make the reload fail). -/
theorem C4_dump_load_roundtrip (cls : EntityCls) (kwargs d s s2 : Store)
    (hwf : cls.WF) (henum : ∀ nf ∈ cls.fields, nf.2.enumWF)
    (h1 : Entity.init cls kwargs = .ok s)
    (h2 : Entity.dump cls s = .ok d)
    (h3 : Entity.load cls d = .ok s2) :
    ∀ nf ∈ cls.fields, nf.2.is_required = true → nf.2.in_dump = true →
      ∀ v, Field.getattr nf.2 s = .ok v → v ≠ Val.none →
        Field.getattr nf.2 s2 = .ok v := by
  rintro ⟨key, f⟩ hmem hreq hdump v hget hvn
  have hn : f.name = some key := hwf.2 _ hmem
  have hmemd : (key, v) ∈ d :=
    (dumpFields_mem s cls.fields hwf.2 d h2 key v).mpr
      ⟨f, hmem, hdump, hreq, hget, hvn⟩
  have hdnd : (d.map Prod.fst).Nodup :=
    List.Nodup.sublist (dumpFields_keys_sublist s cls.fields hwf.2 d h2) hwf.1
  have hdl : d.lookup key = some v := Store.lookup_of_mem_nodup hdnd hmemd
  obtain ⟨hinit2, -⟩ := Entity.init_ok_inv h3
  obtain ⟨-, hsome⟩ :=
    initFields_at_key d cls.fields hwf.1 hwf.2 hmem [] s2 hinit2
  obtain ⟨t1, t1', hset, heq⟩ := hsome v hdl
  cases hk : f.kind
  case enumF ecls =>
      obtain ⟨m, hgetm, henv⟩ := Field.getattr_enum_ok_inv hk hget
      obtain ⟨idx, hlt, rfl, hval_eq⟩ := enumValue_ok_inv henv
      obtain ⟨hnd, hniall⟩ := Field.enumWF_elim (henum _ hmem) hk
      have hvm : v ∈ ecls.values := hval_eq ▸ (ecls.values.get_mem idx hlt)
      have hniv : isinstance v (.enumTy ecls) = false := hniall v hvm
      obtain ⟨v', hpre, hsetbase⟩ := Field.setattr_enum_ok_inv hk hset
      have hcall : enumCall ecls v = .ok (.vmember ecls.id idx) := by
        unfold enumCall
        simp [hniv, enumLookup_nodup hnd hlt hval_eq]
      have hv' : v' = .vmember ecls.id idx := by
        rw [preConvertEnum_not_instance hvn hniv, hcall] at hpre
        exact (Except.ok.inj hpre).symm
      subst hv'
      rcases Field.set_ok_cases hn hsetbase with ⟨-, rfl⟩ | ⟨hnr, -, -⟩
      · have hlk2 : s2.lookup key = some (.vmember ecls.id idx) := by
          rw [heq, Store.lookup_insert, if_pos rfl]
        simp only [Field.getattr, hk, Field.get_stored hn hlk2,
          enumValue_member hlt, hval_eq]
      · rw [hreq] at hnr
        cases hnr
  all_goals (
    have hbase : f.is_enum = false := by simp [Field.is_enum, hk]
    rw [Field.setattr_base hbase] at hset
    rcases Field.set_ok_cases hn hset with ⟨-, rfl⟩ | ⟨hnr, -, -⟩
    · have hlk2 : s2.lookup key = some v := by
        rw [heq, Store.lookup_insert, if_pos rfl]
      rw [Field.getattr_base hbase]
      exact Field.get_stored hn hlk2
    · rw [hreq] at hnr
      cases hnr)

/-- Witness for C4 (amended): reloading the doctest truck's dump
reproduces the retrieved color and weight (the dump-excluded `wheels`
reverts to its default on reload, as the parenthetical allows). -/
theorem C4_dump_load_roundtrip_witness :
    Field.getattr colorField truckReload = .ok (Val.vint 0) ∧
    Field.getattr weightField truckReload = .ok (Val.vfloat 444) := by
  have h := C4_dump_load_roundtrip Truck truckKwargs truckDumpd truckStore
    truckReload (by decide) (by decide) (by decide) (by decide) (by decide)
  exact ⟨h ("color", colorField) color_mem (by decide) (by decide)
      (Val.vint 0) (by decide) (by decide),
    h ("weight", weightField) weight_mem (by decide) (by decide)
      (Val.vfloat 444) (by decide) (by decide)⟩

end Auxlib
